import Mathlib

/-!
Cancellation registry of `android_pthread_fix`.

A shallow embedding of `src/android_pthread_fix.c` and of the call-site guard of
`src/pthread_fix.h`.

* `pthread_t` values are modelled by their bit pattern, a natural number; on a
  two's complement machine `thread & THREADS_MAX_MASK` depends on that pattern only.
* `atomic_int` fields and `int` arguments are integers, `void *` results are the
  integer value of the pointer (`NULL` is `0`, `PTHREAD_CANCELED` is `-1`).
* The table is a total map from the 512 slot indices to records; a pointer into the
  table is a slot index and `NULL` is `none`.
* The thread-local `_pthread_fix_this_cancel_info` is a map from the calling thread's
  id (`pthread_self ()`) to its handle.
* A call ends by returning, by `pthread_exit`, or by aborting (failed `assert`, or a
  dereference of `NULL`).
-/

namespace PthreadFix

/-! ## Constants -/

/-- `#define THREADS_MAX 512`. -/
def THREADS_MAX : Nat := 512

/-- `#define THREADS_MAX_MASK (THREADS_MAX - 1)`. -/
def THREADS_MAX_MASK : Nat := THREADS_MAX - 1

/-- `#define PTHREAD_CANCEL_ENABLE 0`. -/
def PTHREAD_CANCEL_ENABLE : Int := 0

/-- `#define PTHREAD_CANCEL_DISABLE 1`. -/
def PTHREAD_CANCEL_DISABLE : Int := 1

/-- `#define PTHREAD_CANCEL_DEFERRED 0`. -/
def PTHREAD_CANCEL_DEFERRED : Int := 0

/-- `#define PTHREAD_CANCEL_ASYNCHRONOUS 1`. -/
def PTHREAD_CANCEL_ASYNCHRONOUS : Int := 1

/-- `#define PTHREAD_CANCELED ((void *)-1)`. -/
def PTHREAD_CANCELED : Int := -1

/-- Value of `ESRCH` in the Linux `errno.h` the source includes. -/
def ESRCH : Int := 3

/-- Value of `EAGAIN` in the Linux `errno.h` the source includes. -/
def EAGAIN : Int := 11

/-- Value of `EINVAL` in the Linux `errno.h` the source includes. -/
def EINVAL : Int := 22

/-! ## Data model -/

/-- The record `_pthread_fix_cancel_info` (lines 13-19). -/
structure _pthread_fix_cancel_info where
  thread : Nat
  cancel_state : Int
  cancel_type : Int
  cancelled : Bool
  running : Bool
deriving DecidableEq, Repr

/-- The value `(_pthread_fix_cancel_info){0}`. -/
def zero_info : _pthread_fix_cancel_info :=
  { thread := 0, cancel_state := 0, cancel_type := 0, cancelled := false, running := false }

/-- A pointer into `_pthread_fix_cancel_info_table`: the index of a slot. -/
abbrev Slot : Type := Fin THREADS_MAX

/-- The array `_pthread_fix_cancel_info_table[THREADS_MAX]` (line 22). -/
abbrev Table : Type := Slot → _pthread_fix_cancel_info

/-- The process state the functions act on: the table and, per thread id, the
thread-local `_pthread_fix_this_cancel_info` (line 25). -/
structure World where
  table : Table
  this_cancel_info : Nat → Option Slot

/-- The state at process start: the table is zero-initialised (`= {}`) and every
thread-local handle is `NULL`. -/
def World.init : World :=
  { table := fun _ => zero_info, this_cancel_info := fun _ => none }

/-- How a call ends. -/
inductive Flow (α : Type) where
  /-- The call returned `v` to its caller. -/
  | returned (v : α)
  /-- The calling thread ended in `pthread_exit (retval)`. -/
  | exited (retval : Int)
  /-- A failed `assert` or a dereference of `NULL`. -/
  | aborted
deriving DecidableEq, Repr

/-- Sequencing of two calls on one thread: the second runs only when the first
returned. -/
def andThen {α β : Type} (m : World → World × Flow α) (k : α → World → World × Flow β) :
    World → World × Flow β :=
  fun w =>
    match m w with
    | (w1, Flow.returned v) => k v w1
    | (w1, Flow.exited r) => (w1, Flow.exited r)
    | (w1, Flow.aborted) => (w1, Flow.aborted)

/-- A call that always returns, seen as a call that may also exit. -/
def lift {α : Type} (f : World → World × α) : World → World × Flow α :=
  fun w => ((f w).1, Flow.returned (f w).2)

/-! ## Probing -/

/-- The probe index `(i + start) & THREADS_MAX_MASK` of both scans (lines 53, 115),
as a slot of the table. -/
def probe (start i : Nat) : Slot :=
  ⟨(i + start) &&& THREADS_MAX_MASK, Nat.lt_succ_of_le Nat.and_le_right⟩

/-- The `for` loop of `_pthread_fix_cancel_info_get` (lines 52-57), entered at
counter `i` with `n` iterations left. -/
def cancel_info_get_loop (tbl : Table) (thread : Nat) (start : Nat) :
    Nat → Nat → Option Slot
  | 0, _ => none
  | n + 1, i =>
    let search := probe start i
    if (tbl search).thread = thread then some search
    else cancel_info_get_loop tbl thread start n (i + 1)

/-- The function `_pthread_fix_cancel_info_get` (lines 49-59): the table it leaves
and the pointer it returns. -/
def _pthread_fix_cancel_info_get (thread : Nat) (tbl : Table) : Table × Option Slot :=
  let start := thread &&& THREADS_MAX_MASK
  (tbl, cancel_info_get_loop tbl thread start THREADS_MAX 0)

/-- The function `_pthread_fix_set_running` (lines 29-34), called by thread `self`. -/
def _pthread_fix_set_running (running : Bool) (self : Nat) (w : World) : World × Unit :=
  match w.this_cancel_info self with
  | some i =>
    ({ w with table := Function.update w.table i { w.table i with running := running } }, ())
  | none => (w, ())

/-- The function `_pthread_fix_exit` (lines 61-69), called by thread `self`
(`pthread_self ()`): it reads `i->thread` for the assertion, zeroes the record, clears
the thread-local handle and ends the thread. -/
def _pthread_fix_exit (retval : Int) (self : Nat) (w : World) : World × Flow Unit :=
  match w.this_cancel_info self with
  | none => (w, Flow.aborted)
  | some i =>
    if (w.table i).thread = self then
      ({ table := Function.update w.table i zero_info,
         this_cancel_info := Function.update w.this_cancel_info self none },
        Flow.exited retval)
    else (w, Flow.aborted)

/-- The function `pthread_testcancel` (lines 36-46), called by thread `self`. -/
def pthread_testcancel (self : Nat) (w : World) : World × Flow Unit :=
  match w.this_cancel_info self with
  | some i =>
    if (w.table i).cancelled = true then
      if (w.table i).cancel_state = PTHREAD_CANCEL_ENABLE then
        _pthread_fix_exit PTHREAD_CANCELED self w
      else (w, Flow.returned ())
    else (w, Flow.returned ())
  | none => (w, Flow.returned ())

/-- The function `_pthread_fix_cancel_handler` (lines 71-85), run on thread `self` when
the signal is delivered to it. -/
def _pthread_fix_cancel_handler (self : Nat) (w : World) : World × Flow Unit :=
  match w.this_cancel_info self with
  | some i =>
    let w1 : World :=
      { w with table := Function.update w.table i { w.table i with cancelled := true } }
    if (w1.table i).cancel_state = PTHREAD_CANCEL_ENABLE then
      if (w1.table i).cancel_type = PTHREAD_CANCEL_ASYNCHRONOUS ∨ (w1.table i).running = false then
        _pthread_fix_exit PTHREAD_CANCELED self w1
      else (w1, Flow.returned ())
    else (w1, Flow.returned ())
  | none => (w, Flow.returned ())

/-- The function `pthread_cancel` (lines 87-97): the world it leaves and its return
value. The signal sent by `pthread_kill` reaches the target as a later run of
`_pthread_fix_cancel_handler`. -/
def pthread_cancel (thread : Nat) (w : World) : World × Int :=
  let r := _pthread_fix_cancel_info_get thread w.table
  let tbl := r.1
  match r.2 with
  | some i => ({ w with table := Function.update tbl i { tbl i with cancelled := true } }, 0)
  | none => ({ w with table := tbl }, ESRCH)

/-- The transfer record `_pthread_fix_start_info` (lines 99-104) without the start
routine and its argument, which the embedding passes directly. -/
structure _pthread_fix_start_info where
  return_code : Int
  complete : Bool
deriving DecidableEq, Repr

/-- The `for` loop of `_pthread_start_wrap` (lines 114-122), entered at counter `i`
with `n` iterations left: the pointer `info` after the loop. -/
def start_wrap_loop (tbl : Table) (start : Nat) : Nat → Nat → Option Slot
  | 0, _ => none
  | n + 1, i =>
    let search := probe start i
    if (tbl search).thread = 0 then some search
    else start_wrap_loop tbl start n (i + 1)

/-- What `_pthread_start_wrap` has done when it sets `i->complete`. -/
structure Registration where
  world : World
  info : _pthread_fix_start_info
  registered : Bool

/-- Lines 107-142 of `_pthread_start_wrap`, run on the new thread `self`: the search
for a free slot and either the failure branch (lines 123-129, up to `return NULL`) or
the registration (lines 130-142, up to `i->complete = true`). -/
def start_wrap_register (self : Nat) (i : _pthread_fix_start_info) (w : World) :
    Registration :=
  let start := self &&& THREADS_MAX_MASK
  match start_wrap_loop w.table start THREADS_MAX 0 with
  | none =>
    { world := w, info := { i with return_code := EAGAIN, complete := true },
      registered := false }
  | some info =>
    { world :=
        { table := Function.update w.table info { w.table info with thread := self },
          this_cancel_info := Function.update w.this_cancel_info self (some info) },
      info := { i with return_code := 0, complete := true },
      registered := true }

/-- The function `_pthread_start_wrap` (lines 106-147), run on the new thread `self`
with the start routine (applied to its argument) as a call that may return, exit or
abort. -/
def _pthread_start_wrap (self : Nat) (start_routine : World → World × Flow Int)
    (i : _pthread_fix_start_info) (w : World) :
    (World × _pthread_fix_start_info) × Flow Int :=
  let r := start_wrap_register self i w
  if r.registered = false then ((r.world, r.info), Flow.returned 0)
  else
    match start_routine r.world with
    | (w2, Flow.returned ret) =>
      match _pthread_fix_exit ret self w2 with
      | (w3, Flow.returned _) => ((w3, r.info), Flow.returned ret)
      | (w3, Flow.exited v) => ((w3, r.info), Flow.exited v)
      | (w3, Flow.aborted) => ((w3, r.info), Flow.aborted)
    | (w2, Flow.exited v) => ((w2, r.info), Flow.exited v)
    | (w2, Flow.aborted) => ((w2, r.info), Flow.aborted)

/-- The function `_pthread_fix_create` (lines 149-167). `native_ret` is what the
native `pthread_create` returns and `newthread` the id of the thread it started. The
new thread runs `_pthread_start_wrap` up to `i->complete = true`; the creator leaves
its wait loop once `info.complete` holds and returns `info.return_code`. The result is
`none` when the wait loop never ends. -/
def _pthread_fix_create (native_ret : Int) (newthread : Nat) (w : World) :
    World × Option Int :=
  let info : _pthread_fix_start_info := { return_code := 0, complete := false }
  if native_ret ≠ 0 then (w, some native_ret)
  else
    let r := start_wrap_register newthread info w
    if r.info.complete = true then (r.world, some r.info.return_code)
    else (r.world, none)

/-- The function `pthread_setcancelstate` (lines 169-181), called by thread `self`.
`oldstate` is `none` for a `NULL` pointer and otherwise the value the pointed-to `int`
holds; the result gives that value after the call, and the return code. -/
def pthread_setcancelstate (state : Int) (oldstate : Option Int) (self : Nat) (w : World) :
    World × (Option Int × Int) :=
  if state ≠ PTHREAD_CANCEL_ENABLE ∧ state ≠ PTHREAD_CANCEL_DISABLE then
    (w, (oldstate, EINVAL))
  else
    match w.this_cancel_info self with
    | some i =>
      ({ w with table := Function.update w.table i { w.table i with cancel_state := state } },
        (oldstate.map (fun _ => (w.table i).cancel_state), 0))
    | none => (w, (oldstate, 0))

/-- The function `pthread_setcanceltype` (lines 183-195), called by thread `self`;
`oldtype` is modelled as `oldstate` is in `pthread_setcancelstate`. -/
def pthread_setcanceltype (type : Int) (oldtype : Option Int) (self : Nat) (w : World) :
    World × (Option Int × Int) :=
  if type ≠ PTHREAD_CANCEL_ASYNCHRONOUS ∧ type ≠ PTHREAD_CANCEL_DEFERRED then
    (w, (oldtype, EINVAL))
  else
    match w.this_cancel_info self with
    | some i =>
      ({ w with table := Function.update w.table i { w.table i with cancel_type := type } },
        (oldtype.map (fun _ => (w.table i).cancel_type), 0))
    | none => (w, (oldtype, 0))

/-- The macro `_PTHREAD_FIX_LIBCALL_CANCELCHECK` of `pthread_fix.h` (lines 59-66),
expanded on thread `self` around the wrapped call `name`. -/
def _PTHREAD_FIX_LIBCALL_CANCELCHECK {α : Type} (name : World → World × Flow α) (self : Nat) :
    World → World × Flow α :=
  andThen (pthread_testcancel self) fun _ =>
  andThen (lift (_pthread_fix_set_running false self)) fun _ =>
  andThen name fun ret =>
  andThen (lift (_pthread_fix_set_running true self)) fun _ =>
  fun w => (w, Flow.returned ret)

/-! ## The process as a transition system -/

/-- The operations threads perform on the registry. -/
inductive Op where
  /-- A call of `_pthread_fix_create` whose native `pthread_create` returned
  `native_ret` and started thread `newthread`. -/
  | create (native_ret : Int) (newthread : Nat)
  /-- Thread `self` calls `_pthread_fix_exit`, directly or on return of its start
  routine. -/
  | exit (retval : Int) (self : Nat)
  /-- Some thread calls `pthread_cancel (thread)`. -/
  | cancel (thread : Nat)
  /-- The signal handler runs on thread `self`. -/
  | handler (self : Nat)
  /-- Thread `self` calls `pthread_testcancel`. -/
  | testcancel (self : Nat)
  /-- Thread `self` calls `pthread_setcancelstate`. -/
  | setcancelstate (state : Int) (oldstate : Option Int) (self : Nat)
  /-- Thread `self` calls `pthread_setcanceltype`. -/
  | setcanceltype (type : Int) (oldtype : Option Int) (self : Nat)
  /-- Thread `self` calls `_pthread_fix_set_running`. -/
  | set_running (running : Bool) (self : Nat)

/-- The world an operation leaves (on an abort, the world at the abort). -/
def Op.step : Op → World → World
  | Op.create native_ret newthread, w => (_pthread_fix_create native_ret newthread w).1
  | Op.exit retval self, w => (_pthread_fix_exit retval self w).1
  | Op.cancel thread, w => (pthread_cancel thread w).1
  | Op.handler self, w => (_pthread_fix_cancel_handler self w).1
  | Op.testcancel self, w => (pthread_testcancel self w).1
  | Op.setcancelstate state oldstate self, w => (pthread_setcancelstate state oldstate self w).1
  | Op.setcanceltype type oldtype self, w => (pthread_setcanceltype type oldtype self w).1
  | Op.set_running running self, w => (_pthread_fix_set_running running self w).1

/-- What the native thread library guarantees of an operation: a thread that
`pthread_create` starts has a non-zero id that no registered thread has. -/
def Op.admissible (w : World) : Op → Prop
  | Op.create native_ret newthread =>
    native_ret = 0 → newthread ≠ 0 ∧ ∀ k : Slot, (w.table k).thread ≠ newthread
  | _ => True

/-- The worlds reachable from process start. -/
inductive Reachable : World → Prop where
  | init : Reachable World.init
  | step (w : World) (op : Op) : Reachable w → op.admissible w → Reachable (op.step w)

/-- No two slots hold the same non-zero thread id. -/
def UniqueIds (tbl : Table) : Prop :=
  ∀ i j : Slot, (tbl i).thread = (tbl j).thread → (tbl i).thread ≠ 0 → i = j

/-- Every thread-local handle points to a record that holds the thread's own,
non-zero id. -/
def HandlesOwned (w : World) : Prop :=
  ∀ (t : Nat) (i : Slot), w.this_cancel_info t = some i → (w.table i).thread = t ∧ t ≠ 0

/-- A number of consecutive calls of `pthread_testcancel` by thread `self`. -/
def testcancel_times (self : Nat) : Nat → World → World × Flow Unit
  | 0 => fun w => (w, Flow.returned ())
  | n + 1 => andThen (pthread_testcancel self) fun _ => testcancel_times self n

/-- Thread `self` disables cancellation, `pthread_cancel (self)` is called, the
handler runs on `self`, and `self` passes `n` checkpoints. -/
def disabled_sequence (self : Nat) (old : Option Int) (n : Nat) : World → World × Flow Unit :=
  andThen (lift (pthread_setcancelstate PTHREAD_CANCEL_DISABLE old self)) fun _ =>
  andThen (lift (pthread_cancel self)) fun _ =>
  andThen (_pthread_fix_cancel_handler self) fun _ =>
  testcancel_times self n

/-- The sequence `disabled_sequence`, after which thread `self` enables cancellation
again and passes one more checkpoint. -/
def reenabled_sequence (self : Nat) (old old2 : Option Int) (n : Nat) :
    World → World × Flow Unit :=
  andThen (disabled_sequence self old n) fun _ =>
  andThen (lift (pthread_setcancelstate PTHREAD_CANCEL_ENABLE old2 self)) fun _ =>
  pthread_testcancel self

/-- The bit pattern of a signed 64-bit `pthread_t` value (two's complement). -/
def pthread_t_bits (v : Int) : Nat := (v % 2 ^ 64).toNat

/-! ## The start protocol, statement by statement -/

/-- Where the new thread stands in `_pthread_start_wrap`: the statement it runs next. -/
inductive WrapPc where
  /-- The native `pthread_create` has not started the thread. -/
  | not_started
  /-- Lines 107-122: lock the mutex and search a free slot. -/
  | search
  /-- Lines 123-126: no slot found, unlock, `i->return_code = EAGAIN`. -/
  | fail_code
  /-- Line 127: `i->complete = true` on the failure branch. -/
  | fail_complete
  /-- Line 128: the thread has returned `NULL`. -/
  | returned
  /-- Line 130: `info->thread = thread`. -/
  | store (info : Slot)
  /-- Lines 131-132: `_pthread_fix_this_cancel_info = info`, unlock. -/
  | set_this (info : Slot)
  /-- Lines 133-141: signal set-up, copies of the arguments, `i->return_code = 0`. -/
  | set_code
  /-- Line 142: `i->complete = true`. -/
  | set_complete
  /-- Line 144: the start routine runs. -/
  | start_routine
deriving DecidableEq, Repr

/-- Where the creator stands in `_pthread_fix_create`. -/
inductive CreatePc where
  /-- Line 158: the call of the native `pthread_create`. -/
  | call
  /-- Lines 163-165: the wait loop. -/
  | wait
  /-- Line 166: `return info.return_code`. -/
  | read_code
  /-- The function has returned `ret`. -/
  | returned (ret : Int)
deriving DecidableEq, Repr

/-- The state of one `_pthread_fix_create` call and of the thread it starts. `stored`
records that line 130 has run. -/
structure StartState where
  world : World
  info : _pthread_fix_start_info
  wrap : WrapPc
  create : CreatePc
  stored : Bool

/-- The state when the creator has initialised `info` (lines 152-157). -/
def start_init (w : World) : StartState :=
  { world := w, info := { return_code := 0, complete := false },
    wrap := WrapPc.not_started, create := CreatePc.call, stored := false }

/-- One statement of `_pthread_start_wrap` on the new thread `newthread`. -/
def wrap_step (newthread : Nat) (s : StartState) : StartState :=
  match s.wrap with
  | WrapPc.not_started => s
  | WrapPc.search =>
    match start_wrap_loop s.world.table (newthread &&& THREADS_MAX_MASK) THREADS_MAX 0 with
    | none => { s with wrap := WrapPc.fail_code }
    | some info => { s with wrap := WrapPc.store info }
  | WrapPc.fail_code =>
    { s with info := { s.info with return_code := EAGAIN }, wrap := WrapPc.fail_complete }
  | WrapPc.fail_complete =>
    { s with info := { s.info with complete := true }, wrap := WrapPc.returned }
  | WrapPc.returned => s
  | WrapPc.store info =>
    { s with
      world := { s.world with
        table := (Function.update s.world.table info { s.world.table info with thread := newthread }) },
      stored := true, wrap := WrapPc.set_this info }
  | WrapPc.set_this info =>
    { s with
      world := { s.world with
        this_cancel_info := (Function.update s.world.this_cancel_info newthread (some info)) },
      wrap := WrapPc.set_code }
  | WrapPc.set_code =>
    { s with info := { s.info with return_code := 0 }, wrap := WrapPc.set_complete }
  | WrapPc.set_complete =>
    { s with info := { s.info with complete := true }, wrap := WrapPc.start_routine }
  | WrapPc.start_routine => s

/-- One statement of `_pthread_fix_create`; `native_ret` is what the native
`pthread_create` returns. An iteration of the wait loop that reads `complete == false`
leaves the state as it is. -/
def create_step (native_ret : Int) (s : StartState) : StartState :=
  match s.create with
  | CreatePc.call =>
    if native_ret ≠ 0 then { s with create := CreatePc.returned native_ret }
    else { s with create := CreatePc.wait, wrap := WrapPc.search }
  | CreatePc.wait =>
    if s.info.complete = true then { s with create := CreatePc.read_code } else s
  | CreatePc.read_code => { s with create := CreatePc.returned s.info.return_code }
  | CreatePc.returned _ => s

/-- An interleaving of the two threads: `true` lets the new thread run one statement,
`false` the creator. -/
def interleave (native_ret : Int) (newthread : Nat) : List Bool → StartState → StartState
  | [], s => s
  | true :: rest, s => interleave native_ret newthread rest (wrap_step newthread s)
  | false :: rest, s => interleave native_ret newthread rest (create_step native_ret s)

/-- The new thread's record is in the table: line 130 has run, a slot holds its id and
its handle points to that slot. -/
def StartState.registered (newthread : Nat) (s : StartState) : Prop :=
  s.stored = true ∧
    ∃ slot : Slot, (s.world.table slot).thread = newthread ∧
      s.world.this_cancel_info newthread = some slot

/-- The invariant of the start protocol. -/
def StartInv (native_ret : Int) (newthread : Nat) (s : StartState) : Prop :=
  (s.info.complete = true → s.wrap = WrapPc.returned ∨ s.wrap = WrapPc.start_routine) ∧
  (s.wrap = WrapPc.returned → s.info.complete = true ∧ s.info.return_code = EAGAIN) ∧
  (s.wrap = WrapPc.fail_complete → s.info.return_code = EAGAIN) ∧
  (s.wrap = WrapPc.start_routine →
    s.info.complete = true ∧ s.info.return_code = 0 ∧ s.registered newthread) ∧
  (s.wrap = WrapPc.set_complete → s.info.return_code = 0 ∧ s.registered newthread) ∧
  (s.wrap = WrapPc.set_code → s.registered newthread) ∧
  (∀ i, s.wrap = WrapPc.set_this i → s.stored = true ∧ (s.world.table i).thread = newthread) ∧
  (s.create = CreatePc.call → s.wrap = WrapPc.not_started) ∧
  (s.create = CreatePc.read_code → s.info.complete = true) ∧
  (s.create = CreatePc.wait ∨ s.create = CreatePc.read_code → native_ret = 0) ∧
  (∀ r, s.create = CreatePc.returned r →
    (native_ret ≠ 0 ∧ r = native_ret ∧ s.wrap = WrapPc.not_started) ∨
    (native_ret = 0 ∧ s.info.complete = true ∧ r = s.info.return_code))

/-! ## Concrete worlds -/

/-- A world with one registered thread: thread `5` owns slot `5`, which holds `r` with
the `thread` field set to `5`; all other slots are zero. -/
def World.single (r : _pthread_fix_cancel_info) : World :=
  { table := Function.update World.init.table ⟨5, by decide⟩ { r with thread := 5 },
    this_cancel_info := Function.update World.init.this_cancel_info 5 (some ⟨5, by decide⟩) }

/-- A world whose table is full: slot `k` holds thread id `k + 1`. -/
def World.full : World :=
  { table := fun k => { zero_info with thread := k.val + 1 },
    this_cancel_info := fun _ => none }

/-! ## Lemmas on probing -/

theorem probe_val (start i : Nat) : (probe start i).val = (i + start) % 512 := by
  show (i + start) &&& (2 ^ 9 - 1) = (i + start) % 2 ^ 9
  exact Nat.and_pow_two_sub_one_eq_mod _ 9

theorem probe_cover (start : Nat) (k : Slot) :
    ∃ i, i < THREADS_MAX ∧ probe start i = k := by
  have hk : k.val < 512 := k.isLt
  refine ⟨(k.val + 512 - start % 512) % 512, ?_, ?_⟩
  · show _ < 512
    omega
  · apply Fin.ext
    rw [probe_val]
    omega

theorem probe_inj (start i j : Nat) (hi : i < THREADS_MAX) (hj : j < THREADS_MAX)
    (h : probe start i = probe start j) : i = j := by
  have h1 : (probe start i).val = (probe start j).val := by rw [h]
  rw [probe_val, probe_val] at h1
  have hi2 : i < 512 := hi
  have hj2 : j < 512 := hj
  omega

theorem cancel_info_get_loop_none (tbl : Table) (thread start : Nat) (n i : Nat) :
    cancel_info_get_loop tbl thread start n i = none ↔
      ∀ j, i ≤ j → j < i + n → (tbl (probe start j)).thread ≠ thread := by
  induction n generalizing i with
  | zero =>
    simp only [cancel_info_get_loop, true_iff]
    intro j h1 h2
    omega
  | succ n ih =>
    simp only [cancel_info_get_loop]
    by_cases h : (tbl (probe start i)).thread = thread
    · simp only [h, if_true]
      constructor
      · intro hc
        cases hc
      · intro hc
        exact absurd h (hc i (le_refl i) (by omega))
    · simp only [h, if_false]
      rw [ih]
      constructor
      · intro hc j h1 h2
        by_cases hij : j = i
        · subst hij
          exact h
        · exact hc j (by omega) (by omega)
      · intro hc j h1 h2
        exact hc j (by omega) (by omega)

theorem cancel_info_get_loop_first (tbl : Table) (thread start : Nat) (n i j : Nat)
    (h1 : i ≤ j) (h2 : j < i + n) (hj : (tbl (probe start j)).thread = thread)
    (hlt : ∀ l, i ≤ l → l < j → (tbl (probe start l)).thread ≠ thread) :
    cancel_info_get_loop tbl thread start n i = some (probe start j) := by
  induction n generalizing i with
  | zero => omega
  | succ n ih =>
    simp only [cancel_info_get_loop]
    by_cases hij : j = i
    · subst hij
      simp only [hj, if_true]
    · have hne : (tbl (probe start i)).thread ≠ thread := hlt i (le_refl i) (by omega)
      simp only [hne, if_false]
      exact ih (i + 1) (by omega) (by omega) (fun l hl1 hl2 => hlt l (by omega) hl2)

theorem cancel_info_get_loop_some (tbl : Table) (thread start : Nat) (n i : Nat) (s : Slot)
    (h : cancel_info_get_loop tbl thread start n i = some s) :
    ∃ j, i ≤ j ∧ j < i + n ∧ s = probe start j ∧ (tbl s).thread = thread ∧
      ∀ l, i ≤ l → l < j → (tbl (probe start l)).thread ≠ thread := by
  induction n generalizing i with
  | zero => simp [cancel_info_get_loop] at h
  | succ n ih =>
    simp only [cancel_info_get_loop] at h
    by_cases hi : (tbl (probe start i)).thread = thread
    · simp only [hi, if_true, Option.some.injEq] at h
      refine ⟨i, le_refl i, by omega, h.symm, by rw [← h]; exact hi, ?_⟩
      intro l hl1 hl2
      omega
    · simp only [hi, if_false] at h
      obtain ⟨j, hj1, hj2, hj3, hj4, hj5⟩ := ih (i + 1) h
      refine ⟨j, by omega, by omega, hj3, hj4, ?_⟩
      intro l hl1 hl2
      by_cases hli : l = i
      · subst hli
        exact hi
      · exact hj5 l (by omega) hl2

theorem cancel_info_get_none_iff (thread : Nat) (tbl : Table) :
    (_pthread_fix_cancel_info_get thread tbl).2 = none ↔ ∀ k, (tbl k).thread ≠ thread := by
  simp only [_pthread_fix_cancel_info_get]
  rw [cancel_info_get_loop_none]
  constructor
  · intro h k
    obtain ⟨i, hi, hk⟩ := probe_cover (thread &&& THREADS_MAX_MASK) k
    rw [← hk]
    exact h i (Nat.zero_le i) (by omega)
  · intro h j _ _
    exact h _

theorem cancel_info_get_some (thread : Nat) (tbl : Table) (s : Slot)
    (h : (_pthread_fix_cancel_info_get thread tbl).2 = some s) : (tbl s).thread = thread := by
  simp only [_pthread_fix_cancel_info_get] at h
  obtain ⟨j, _, _, _, hj, _⟩ := cancel_info_get_loop_some tbl thread _ _ _ s h
  exact hj

/-- C1: `_pthread_fix_cancel_info_get (t)` returns the slot at index
`((t & 511) + i) & 511` for the least `i` in `0..511` whose `thread` field equals `t`,
returns `NULL` exactly when no slot of the table holds `t`, and leaves the table as it
found it. -/
theorem cancel_info_get_spec (t : Nat) (tbl : Table) :
    (∀ i, i < THREADS_MAX →
        (tbl (probe (t &&& THREADS_MAX_MASK) i)).thread = t →
        (∀ l, l < i → (tbl (probe (t &&& THREADS_MAX_MASK) l)).thread ≠ t) →
        (_pthread_fix_cancel_info_get t tbl).2 = some (probe (t &&& THREADS_MAX_MASK) i)) ∧
    (∀ s, (_pthread_fix_cancel_info_get t tbl).2 = some s →
      ∃ i, i < THREADS_MAX ∧ s = probe (t &&& THREADS_MAX_MASK) i ∧ (tbl s).thread = t ∧
        ∀ l, l < i → (tbl (probe (t &&& THREADS_MAX_MASK) l)).thread ≠ t) ∧
    (∀ i, (probe (t &&& THREADS_MAX_MASK) i).val = ((t &&& 511) + i) &&& 511) ∧
    ((_pthread_fix_cancel_info_get t tbl).2 = none ↔ ∀ k : Slot, (tbl k).thread ≠ t) ∧
    (_pthread_fix_cancel_info_get t tbl).1 = tbl := by
  refine ⟨?_, ?_, ?_, cancel_info_get_none_iff t tbl, rfl⟩
  · intro i hi hm hl
    simp only [_pthread_fix_cancel_info_get]
    exact cancel_info_get_loop_first tbl t _ THREADS_MAX 0 i (Nat.zero_le i) (by omega) hm
      (fun l _ hl2 => hl l hl2)
  · intro s hs
    simp only [_pthread_fix_cancel_info_get] at hs
    obtain ⟨j, _, hj2, hj3, hj4, hj5⟩ := cancel_info_get_loop_some tbl t _ _ _ s hs
    exact ⟨j, by omega, hj3, hj4, fun l hl => hj5 l (Nat.zero_le l) hl⟩
  · intro i
    show (i + (t &&& THREADS_MAX_MASK)) &&& THREADS_MAX_MASK = ((t &&& 511) + i) &&& 511
    rw [Nat.add_comm]
    rfl

/-! ## Lemmas on the registry invariants -/

theorem start_wrap_loop_eq (tbl : Table) (start n i : Nat) :
    start_wrap_loop tbl start n i = cancel_info_get_loop tbl 0 start n i := by
  induction n generalizing i with
  | zero => rfl
  | succ n ih => simp only [start_wrap_loop, cancel_info_get_loop, ih]

theorem start_wrap_loop_none_iff (tbl : Table) (start : Nat) :
    start_wrap_loop tbl start THREADS_MAX 0 = none ↔ ∀ k, (tbl k).thread ≠ 0 := by
  rw [start_wrap_loop_eq, cancel_info_get_loop_none]
  constructor
  · intro h k
    obtain ⟨i, hi, hk⟩ := probe_cover start k
    rw [← hk]
    exact h i (Nat.zero_le i) (by omega)
  · intro h j _ _
    exact h _

theorem start_wrap_loop_some (tbl : Table) (start : Nat) (s : Slot)
    (h : start_wrap_loop tbl start THREADS_MAX 0 = some s) : (tbl s).thread = 0 := by
  rw [start_wrap_loop_eq] at h
  obtain ⟨j, _, _, _, hj, _⟩ := cancel_info_get_loop_some tbl 0 _ _ _ s h
  exact hj

theorem start_wrap_register_full (self : Nat) (i : _pthread_fix_start_info) (w : World)
    (h : ∀ k, (w.table k).thread ≠ 0) :
    start_wrap_register self i w =
      { world := w, info := { i with return_code := EAGAIN, complete := true },
        registered := false } := by
  have hl := (start_wrap_loop_none_iff w.table (self &&& THREADS_MAX_MASK)).mpr h
  simp only [start_wrap_register, hl]

theorem start_wrap_register_free (self : Nat) (i : _pthread_fix_start_info) (w : World)
    (h : ∃ k, (w.table k).thread = 0) :
    ∃ s, (w.table s).thread = 0 ∧
      start_wrap_loop w.table (self &&& THREADS_MAX_MASK) THREADS_MAX 0 = some s ∧
      start_wrap_register self i w =
        { world :=
            { table := Function.update w.table s { w.table s with thread := self },
              this_cancel_info := Function.update w.this_cancel_info self (some s) },
          info := { i with return_code := 0, complete := true },
          registered := true } := by
  cases hl : start_wrap_loop w.table (self &&& THREADS_MAX_MASK) THREADS_MAX 0 with
  | none =>
    obtain ⟨k, hk⟩ := h
    exact absurd hk ((start_wrap_loop_none_iff _ _).mp hl k)
  | some s =>
    refine ⟨s, start_wrap_loop_some _ _ s hl, rfl, ?_⟩
    simp only [start_wrap_register, hl]

theorem exit_world (retval : Int) (self : Nat) (w : World) (i : Slot)
    (hi : w.this_cancel_info self = some i) (ho : (w.table i).thread = self) :
    _pthread_fix_exit retval self w =
      ({ table := Function.update w.table i zero_info,
         this_cancel_info := Function.update w.this_cancel_info self none },
        Flow.exited retval) := by
  simp only [_pthread_fix_exit, hi, ho, if_true]

theorem exit_preserves (retval : Int) (self : Nat) (w : World)
    (hu : UniqueIds w.table) (hh : HandlesOwned w) :
    UniqueIds (_pthread_fix_exit retval self w).1.table ∧
      HandlesOwned (_pthread_fix_exit retval self w).1 := by
  cases hi : w.this_cancel_info self with
  | none =>
    have : _pthread_fix_exit retval self w = (w, Flow.aborted) := by
      simp only [_pthread_fix_exit, hi]
    rw [this]
    exact ⟨hu, hh⟩
  | some i =>
    have ho := (hh self i hi).1
    rw [exit_world retval self w i hi ho]
    constructor
    · intro a b hab ha
      have hai : a ≠ i := by
        intro h
        subst h
        simp [zero_info] at ha
      have hbi : b ≠ i := by
        intro h
        subst h
        rw [hab] at ha
        simp [zero_info] at ha
      simp only [Function.update_noteq hai, Function.update_noteq hbi] at hab ha
      exact hu a b hab ha
    · intro t j htj
      have hts : t ≠ self := by
        intro h
        subst h
        simp at htj
      simp only [Function.update_noteq hts] at htj
      have hj := hh t j htj
      have hji : j ≠ i := by
        intro h
        subst h
        exact hts (hj.1.symm.trans ho)
      simp only [Function.update_noteq hji]
      exact hj

theorem register_preserves (self : Nat) (i : _pthread_fix_start_info) (w : World)
    (hu : UniqueIds w.table) (hh : HandlesOwned w)
    (h0 : self ≠ 0) (hfresh : ∀ k : Slot, (w.table k).thread ≠ self) :
    UniqueIds (start_wrap_register self i w).world.table ∧
      HandlesOwned (start_wrap_register self i w).world := by
  by_cases hfull : ∀ k, (w.table k).thread ≠ 0
  · rw [start_wrap_register_full self i w hfull]
    exact ⟨hu, hh⟩
  · have hex : ∃ k, (w.table k).thread = 0 := by
      by_contra hc
      exact hfull (fun k hk => hc ⟨k, hk⟩)
    obtain ⟨s, hs, _, hreg⟩ := start_wrap_register_free self i w hex
    rw [hreg]
    constructor
    · intro a b hab ha
      by_cases has : a = s <;> by_cases hbs : b = s
      · rw [has, hbs]
      · subst has
        simp only [Function.update_same, Function.update_noteq hbs] at hab
        exact absurd hab.symm (hfresh b)
      · subst hbs
        simp only [Function.update_same, Function.update_noteq has] at hab
        exact absurd hab (hfresh a)
      · simp only [Function.update_noteq has, Function.update_noteq hbs] at hab ha
        exact hu a b hab ha
    · intro t j htj
      by_cases hts : t = self
      · subst hts
        simp only [Function.update_same, Option.some.injEq] at htj
        subst htj
        exact ⟨by simp only [Function.update_same], h0⟩
      · simp only [Function.update_noteq hts] at htj
        have hj := hh t j htj
        have hjs : j ≠ s := by
          intro h
          subst h
          exact hj.2 (hj.1.symm.trans hs)
        simp only [Function.update_noteq hjs]
        exact hj

theorem same_ids_preserves (w w1 : World)
    (ht : ∀ k, (w1.table k).thread = (w.table k).thread)
    (hc : w1.this_cancel_info = w.this_cancel_info)
    (hu : UniqueIds w.table) (hh : HandlesOwned w) :
    UniqueIds w1.table ∧ HandlesOwned w1 := by
  constructor
  · intro a b hab ha
    rw [ht a, ht b] at hab
    rw [ht a] at ha
    exact hu a b hab ha
  · intro t j htj
    rw [hc] at htj
    rw [ht j]
    exact hh t j htj

theorem update_thread_eq (tbl : Table) (i k : Slot) (r : _pthread_fix_cancel_info)
    (h : r.thread = (tbl i).thread) :
    (Function.update tbl i r k).thread = (tbl k).thread := by
  by_cases hk : k = i
  · subst hk
    simp only [Function.update_same, h]
  · simp only [Function.update_noteq hk]

theorem step_preserves (w : World) (op : Op) (ha : op.admissible w)
    (hu : UniqueIds w.table) (hh : HandlesOwned w) :
    UniqueIds (op.step w).table ∧ HandlesOwned (op.step w) := by
  cases op with
  | create native_ret newthread =>
    simp only [Op.step, _pthread_fix_create]
    by_cases hn : native_ret = 0
    · obtain ⟨h0, hfresh⟩ := ha hn
      have hp := register_preserves newthread { return_code := 0, complete := false } w
        hu hh h0 hfresh
      simp only [hn, ne_eq, not_true_eq_false, if_false]
      split <;> exact hp
    · simp only [ne_eq, hn, not_false_eq_true, if_true]
      exact ⟨hu, hh⟩
  | exit retval self => exact exit_preserves retval self w hu hh
  | cancel thread =>
    simp only [Op.step, pthread_cancel, _pthread_fix_cancel_info_get]
    split
    · exact same_ids_preserves w _ (fun k => update_thread_eq _ _ _ _ rfl) rfl hu hh
    · exact ⟨hu, hh⟩
  | handler self =>
    simp only [Op.step, _pthread_fix_cancel_handler]
    cases hi : w.this_cancel_info self with
    | none => exact ⟨hu, hh⟩
    | some i =>
      have h1 := same_ids_preserves w
        { w with table := Function.update w.table i { w.table i with cancelled := true } }
        (fun k => update_thread_eq _ _ _ _ rfl) rfl hu hh
      simp only []
      split
      · split
        · exact exit_preserves _ _ _ h1.1 h1.2
        · exact h1
      · exact h1
  | testcancel self =>
    simp only [Op.step, pthread_testcancel]
    split
    · split
      · split
        · exact exit_preserves _ _ _ hu hh
        · exact ⟨hu, hh⟩
      · exact ⟨hu, hh⟩
    · exact ⟨hu, hh⟩
  | setcancelstate state oldstate self =>
    simp only [Op.step, pthread_setcancelstate]
    split
    · exact ⟨hu, hh⟩
    · split
      · exact same_ids_preserves w _ (fun k => update_thread_eq _ _ _ _ rfl) rfl hu hh
      · exact ⟨hu, hh⟩
  | setcanceltype type oldtype self =>
    simp only [Op.step, pthread_setcanceltype]
    split
    · exact ⟨hu, hh⟩
    · split
      · exact same_ids_preserves w _ (fun k => update_thread_eq _ _ _ _ rfl) rfl hu hh
      · exact ⟨hu, hh⟩
  | set_running running self =>
    simp only [Op.step, _pthread_fix_set_running]
    split
    · exact same_ids_preserves w _ (fun k => update_thread_eq _ _ _ _ rfl) rfl hu hh
    · exact ⟨hu, hh⟩

theorem reachable_invariant (w : World) (h : Reachable w) :
    UniqueIds w.table ∧ HandlesOwned w := by
  induction h with
  | init =>
    constructor
    · intro a b _ ha
      exact absurd rfl ha
    · intro t j htj
      simp [World.init] at htj
  | step w op _ ha ih => exact step_preserves w op ha ih.1 ih.2

/-- C2: in every world reachable from the all-zero table by creations (each of a
thread whose non-zero id is not registered), exits, cancellation requests, handler
runs, checkpoints and setter calls, no two slots hold the same non-zero thread id, and
no two threads hold a handle to the same slot. -/
theorem reachable_unique_records (w : World) (h : Reachable w) :
    (∀ i j : Slot, (w.table i).thread = (w.table j).thread → (w.table i).thread ≠ 0 → i = j) ∧
    (∀ (t u : Nat) (i : Slot),
      w.this_cancel_info t = some i → w.this_cancel_info u = some i → t = u) := by
  obtain ⟨hu, hh⟩ := reachable_invariant w h
  refine ⟨hu, ?_⟩
  intro t u i ht hu2
  exact (hh t i ht).1.symm.trans (hh u i hu2).1

theorem cancel_info_get_spec_witness :
    (_pthread_fix_cancel_info_get 5 (World.single zero_info).table).2 = some ⟨5, by decide⟩ :=
  (cancel_info_get_spec 5 (World.single zero_info).table).1 0 (by decide)
    (by decide)
    (fun l hl => absurd hl (Nat.not_lt_zero l))

theorem reachable_unique_records_witness :
    Reachable ((Op.create 0 5).step World.init) ∧
    ((∀ i j : Slot, (((Op.create 0 5).step World.init).table i).thread =
        (((Op.create 0 5).step World.init).table j).thread →
        (((Op.create 0 5).step World.init).table i).thread ≠ 0 → i = j) ∧
    (∀ (t u : Nat) (i : Slot),
      ((Op.create 0 5).step World.init).this_cancel_info t = some i →
      ((Op.create 0 5).step World.init).this_cancel_info u = some i → t = u)) :=
  have hr : Reachable ((Op.create 0 5).step World.init) :=
    Reachable.step World.init (Op.create 0 5) Reachable.init
      (fun _ => ⟨by decide, fun k => by simp [World.init, zero_info]⟩)
  ⟨hr, reachable_unique_records _ hr⟩

/-! ## Registration on a full table -/

theorem create_eq (self : Nat) (w : World) :
    _pthread_fix_create 0 self w =
      ((start_wrap_register self { return_code := 0, complete := false } w).world,
        some (start_wrap_register self { return_code := 0, complete := false } w).info.return_code) := by
  by_cases hfull : ∀ k, (w.table k).thread ≠ 0
  · simp [_pthread_fix_create, start_wrap_register_full self _ w hfull]
  · have hex : ∃ k, (w.table k).thread = 0 := by
      by_contra hc
      exact hfull (fun k hk => hc ⟨k, hk⟩)
    obtain ⟨s, _, _, hreg⟩ := start_wrap_register_free self
      { return_code := 0, complete := false } w hex
    simp [_pthread_fix_create, hreg]

theorem full_of_injective_ids (tbl : Table) (ids : Fin THREADS_MAX → Nat)
    (hinj : Function.Injective ids)
    (hids : ∀ j, ids j ≠ 0 ∧ ∃ k : Slot, (tbl k).thread = ids j) :
    ∀ k : Slot, (tbl k).thread ≠ 0 := by
  have hf : ∀ j, ∃ k : Slot, (tbl k).thread = ids j := fun j => (hids j).2
  choose f hfk using hf
  have hfinj : Function.Injective f := by
    intro a b hab
    apply hinj
    rw [← hfk a, ← hfk b, hab]
  have hsurj : Function.Surjective f := Finite.injective_iff_surjective.mp hfinj
  intro k
  obtain ⟨j, hj⟩ := hsurj k
  rw [← hj, hfk j]
  exact (hids j).1

/-- C3: the registration of `_pthread_start_wrap` succeeds exactly when some slot has
`thread == 0`; on a full table it sets `return_code` to `EAGAIN` and `complete`, leaves
the world unchanged and returns `NULL` whatever the start routine is, so
`_pthread_fix_create` returns `EAGAIN`; in particular it does when 512 distinct
non-zero thread ids are registered. -/
theorem start_wrap_full_table (self : Nat) (i : _pthread_fix_start_info) (w : World) :
    ((start_wrap_register self i w).registered = true ↔ ∃ k : Slot, (w.table k).thread = 0) ∧
    ((_pthread_fix_create 0 self w).2 = some 0 ↔ ∃ k : Slot, (w.table k).thread = 0) ∧
    ((∀ k : Slot, (w.table k).thread ≠ 0) →
      (∀ start_routine : World → World × Flow Int,
        _pthread_start_wrap self start_routine i w =
          ((w, { i with return_code := EAGAIN, complete := true }), Flow.returned 0)) ∧
      _pthread_fix_create 0 self w = (w, some EAGAIN)) ∧
    (∀ ids : Fin THREADS_MAX → Nat, Function.Injective ids →
      (∀ j, ids j ≠ 0 ∧ ∃ k : Slot, (w.table k).thread = ids j) →
      _pthread_fix_create 0 self w = (w, some EAGAIN)) := by
  have hfullcase : (∀ k : Slot, (w.table k).thread ≠ 0) →
      (∀ start_routine : World → World × Flow Int,
        _pthread_start_wrap self start_routine i w =
          ((w, { i with return_code := EAGAIN, complete := true }), Flow.returned 0)) ∧
      _pthread_fix_create 0 self w = (w, some EAGAIN) := by
    intro hfull
    constructor
    · intro start_routine
      simp [_pthread_start_wrap, start_wrap_register_full self i w hfull]
    · rw [create_eq, start_wrap_register_full self _ w hfull]
  refine ⟨?_, ?_, hfullcase, ?_⟩
  · by_cases hfull : ∀ k, (w.table k).thread ≠ 0
    · rw [start_wrap_register_full self i w hfull]
      constructor
      · intro h
        cases h
      · rintro ⟨k, hk⟩
        exact absurd hk (hfull k)
    · have hex : ∃ k, (w.table k).thread = 0 := by
        by_contra hc
        exact hfull (fun k hk => hc ⟨k, hk⟩)
      obtain ⟨s, _, _, hreg⟩ := start_wrap_register_free self i w hex
      rw [hreg]
      exact ⟨fun _ => hex, fun _ => rfl⟩
  · by_cases hfull : ∀ k, (w.table k).thread ≠ 0
    · rw [(hfullcase hfull).2]
      constructor
      · intro h
        simp [EAGAIN] at h
      · rintro ⟨k, hk⟩
        exact absurd hk (hfull k)
    · have hex : ∃ k, (w.table k).thread = 0 := by
        by_contra hc
        exact hfull (fun k hk => hc ⟨k, hk⟩)
      obtain ⟨s, _, _, hreg⟩ := start_wrap_register_free self
        { return_code := 0, complete := false } w hex
      rw [create_eq, hreg]
      exact ⟨fun _ => hex, fun _ => rfl⟩
  · intro ids hinj hids
    exact (hfullcase (full_of_injective_ids w.table ids hinj hids)).2

theorem start_wrap_full_table_witness :
    (∀ k : Slot, (World.full.table k).thread ≠ 0) ∧
    (∀ start_routine : World → World × Flow Int,
      _pthread_start_wrap 600 start_routine { return_code := 0, complete := false } World.full =
        ((World.full, { return_code := EAGAIN, complete := true }), Flow.returned 0)) ∧
    _pthread_fix_create 0 600 World.full = (World.full, some EAGAIN) :=
  have hfull : ∀ k : Slot, (World.full.table k).thread ≠ 0 := fun k => by
    simp [World.full]
  ⟨hfull, (start_wrap_full_table 600 { return_code := 0, complete := false } World.full).2.2.1 hfull⟩

/-! ## The checkpoint and the handler -/

theorem testcancel_eq (self : Nat) (w : World) (i : Slot)
    (hi : w.this_cancel_info self = some i) (ho : (w.table i).thread = self) :
    pthread_testcancel self w =
      if (w.table i).cancelled = true ∧ (w.table i).cancel_state = PTHREAD_CANCEL_ENABLE then
        ({ table := Function.update w.table i zero_info,
           this_cancel_info := Function.update w.this_cancel_info self none },
          Flow.exited PTHREAD_CANCELED)
      else (w, Flow.returned ()) := by
  simp only [pthread_testcancel, hi]
  by_cases hc : (w.table i).cancelled = true
  · by_cases hs : (w.table i).cancel_state = PTHREAD_CANCEL_ENABLE
    · simp only [hc, hs, if_true, and_self]
      exact exit_world _ self w i hi ho
    · simp only [hc, hs, if_true, if_false, and_false]
  · simp only [hc, if_false, false_and]
    rfl

/-- C4: for a thread with a registered record, `pthread_testcancel` ends the thread
through `_pthread_fix_exit (PTHREAD_CANCELED)`, zeroing its record and clearing its
handle, if and only if the record has `cancelled` set and `cancel_state` equal to
`PTHREAD_CANCEL_ENABLE`; otherwise it returns and leaves the world unchanged; the
outcome does not depend on `cancel_type` or `running`. -/
theorem testcancel_spec (self : Nat) (w : World) (i : Slot)
    (hi : w.this_cancel_info self = some i) (ho : (w.table i).thread = self) :
    ((w.table i).cancelled = true ∧ (w.table i).cancel_state = PTHREAD_CANCEL_ENABLE →
      pthread_testcancel self w =
        ({ table := Function.update w.table i zero_info,
           this_cancel_info := Function.update w.this_cancel_info self none },
          Flow.exited PTHREAD_CANCELED)) ∧
    (¬ ((w.table i).cancelled = true ∧ (w.table i).cancel_state = PTHREAD_CANCEL_ENABLE) →
      pthread_testcancel self w = (w, Flow.returned ())) ∧
    ((∃ r, (pthread_testcancel self w).2 = Flow.exited r) ↔
      ((w.table i).cancelled = true ∧ (w.table i).cancel_state = PTHREAD_CANCEL_ENABLE)) ∧
    (∀ (ty : Int) (r : Bool),
      (pthread_testcancel self
        { w with table := (Function.update w.table i
            { w.table i with cancel_type := ty, running := r }) }).2 =
        (pthread_testcancel self w).2) := by
  have heq := testcancel_eq self w i hi ho
  refine ⟨?_, ?_, ?_, ?_⟩
  · intro h
    rw [heq, if_pos h]
  · intro h
    rw [heq, if_neg h]
  · by_cases h : (w.table i).cancelled = true ∧ (w.table i).cancel_state = PTHREAD_CANCEL_ENABLE
    · rw [heq, if_pos h]
      exact ⟨fun _ => h, fun _ => ⟨_, rfl⟩⟩
    · rw [heq, if_neg h]
      constructor
      · rintro ⟨r, hr⟩
        cases hr
      · intro h2
        exact absurd h2 h
  · intro ty r
    have heq2 := testcancel_eq self
      { w with table := (Function.update w.table i
          { w.table i with cancel_type := ty, running := r }) } i hi
      (by simp only [Function.update_same]; exact ho)
    rw [heq, heq2]
    simp only [Function.update_same]
    by_cases h : (w.table i).cancelled = true ∧ (w.table i).cancel_state = PTHREAD_CANCEL_ENABLE
    · rw [if_pos h, if_pos h]
    · rw [if_neg h, if_neg h]

theorem testcancel_spec_witness :
    (pthread_testcancel 5
      (World.single { zero_info with cancelled := true, cancel_type := 1 })).2 =
        Flow.exited PTHREAD_CANCELED ∧
    pthread_testcancel 5 (World.single { zero_info with cancelled := true, cancel_state := 1 }) =
      (World.single { zero_info with cancelled := true, cancel_state := 1 }, Flow.returned ()) :=
  have h5 : ∀ r, (World.single r).this_cancel_info 5 = some ⟨5, by decide⟩ := fun r => by
    simp [World.single]
  have ho : ∀ r, ((World.single r).table ⟨5, by decide⟩).thread = 5 := fun r => by
    simp [World.single]
  ⟨by
    rw [(testcancel_spec 5 _ ⟨5, by decide⟩ (h5 _) (ho _)).1
      (by simp [World.single, zero_info, PTHREAD_CANCEL_ENABLE])],
   (testcancel_spec 5 _ ⟨5, by decide⟩ (h5 _) (ho _)).2.1
      (by simp [World.single, zero_info, PTHREAD_CANCEL_ENABLE])⟩

theorem handler_eq (self : Nat) (w : World) (i : Slot)
    (hi : w.this_cancel_info self = some i) (ho : (w.table i).thread = self) :
    _pthread_fix_cancel_handler self w =
      if (w.table i).cancel_state = PTHREAD_CANCEL_ENABLE ∧
          ((w.table i).cancel_type = PTHREAD_CANCEL_ASYNCHRONOUS ∨ (w.table i).running = false) then
        ({ table := Function.update w.table i zero_info,
           this_cancel_info := Function.update w.this_cancel_info self none },
          Flow.exited PTHREAD_CANCELED)
      else
        ({ w with table := Function.update w.table i { w.table i with cancelled := true } },
          Flow.returned ()) := by
  simp only [_pthread_fix_cancel_handler, hi, Function.update_same]
  by_cases hs : (w.table i).cancel_state = PTHREAD_CANCEL_ENABLE
  · by_cases ht : (w.table i).cancel_type = PTHREAD_CANCEL_ASYNCHRONOUS ∨
        (w.table i).running = false
    · simp only [hs, ht, if_true, and_self]
      have he := exit_world PTHREAD_CANCELED self
        { w with table := Function.update w.table i { w.table i with cancelled := true } } i hi
        (by simp only [Function.update_same]; exact ho)
      simp only [Function.update_idem] at he
      rw [← he, hs]
    · simp only [hs, ht, if_true, if_false, and_false]
  · simp only [hs, if_false, false_and]

/-- C6: for a live record with `cancel_state` enabled and `cancel_type` asynchronous,
a run of the handler ends the owning thread at once through
`_pthread_fix_exit (PTHREAD_CANCELED)`, zeroing the record and clearing the handle,
whatever `running` and `cancelled` hold, so also outside a guarded call. -/
theorem handler_asynchronous (self : Nat) (w : World) (i : Slot)
    (hi : w.this_cancel_info self = some i) (ho : (w.table i).thread = self)
    (hs : (w.table i).cancel_state = PTHREAD_CANCEL_ENABLE)
    (ht : (w.table i).cancel_type = PTHREAD_CANCEL_ASYNCHRONOUS) :
    _pthread_fix_cancel_handler self w =
      ({ table := Function.update w.table i zero_info,
         this_cancel_info := Function.update w.this_cancel_info self none },
        Flow.exited PTHREAD_CANCELED) := by
  rw [handler_eq self w i hi ho, if_pos ⟨hs, Or.inl ht⟩]

theorem handler_asynchronous_witness :
    (_pthread_fix_cancel_handler 5
      (World.single { zero_info with cancel_type := 1, running := true })).2 =
        Flow.exited PTHREAD_CANCELED ∧
    (_pthread_fix_cancel_handler 5
      (World.single { zero_info with cancel_type := 1, running := true })).1.table
        ⟨5, by decide⟩ = zero_info := by
  rw [handler_asynchronous 5 _ ⟨5, by decide⟩ (by simp [World.single])
    (by simp [World.single]) (by simp [World.single, zero_info, PTHREAD_CANCEL_ENABLE])
    (by simp [World.single, zero_info, PTHREAD_CANCEL_ASYNCHRONOUS])]
  exact ⟨rfl, by simp only [Function.update_same]⟩

/-! ## The handler under deferred cancellation -/

/-- C5 (counterexample): thread `5` owns an enabled, deferred record and has completed
a guarded call (`running` is `true`); it enters a guarded call (the checkpoint returns,
then `_pthread_fix_set_running (false)`), and the handler, delivered inside the call,
ends the thread and zeroes its record. -/
theorem handler_in_guarded_call_exits :
    ((World.single { zero_info with running := true }).table ⟨5, by decide⟩).cancel_state =
      PTHREAD_CANCEL_ENABLE ∧
    ((World.single { zero_info with running := true }).table ⟨5, by decide⟩).cancel_type =
      PTHREAD_CANCEL_DEFERRED ∧
    pthread_testcancel 5 (World.single { zero_info with running := true }) =
      (World.single { zero_info with running := true }, Flow.returned ()) ∧
    (_pthread_fix_cancel_handler 5
      (_pthread_fix_set_running false 5 (World.single { zero_info with running := true })).1).2 =
        Flow.exited PTHREAD_CANCELED ∧
    (_pthread_fix_cancel_handler 5
      (_pthread_fix_set_running false 5 (World.single { zero_info with running := true })).1).1.table
        ⟨5, by decide⟩ = zero_info ∧
    (_pthread_fix_cancel_handler 5
      (_pthread_fix_set_running false 5
        (World.single { zero_info with running := true })).1).1.this_cancel_info 5 = none := by
  have h5 : (World.single { zero_info with running := true }).this_cancel_info 5 =
      some ⟨5, by decide⟩ := by simp [World.single]
  have ho : ((World.single { zero_info with running := true }).table ⟨5, by decide⟩).thread = 5 := by
    simp [World.single]
  refine ⟨by simp [World.single, zero_info, PTHREAD_CANCEL_ENABLE],
    by simp [World.single, zero_info, PTHREAD_CANCEL_DEFERRED], ?_, ?_, ?_, ?_⟩
  · rw [testcancel_eq 5 _ ⟨5, by decide⟩ h5 ho, if_neg]
    simp [World.single, zero_info]
  all_goals
    rw [handler_eq 5 _ ⟨5, by decide⟩ (by simp [_pthread_fix_set_running, h5])
      (by simp [_pthread_fix_set_running, h5, ho]), if_pos (by
        simp [_pthread_fix_set_running, h5, World.single, zero_info, PTHREAD_CANCEL_ENABLE])]
    try simp

theorem set_running_eq (b : Bool) (self : Nat) (w : World) (i : Slot)
    (hi : w.this_cancel_info self = some i) :
    (_pthread_fix_set_running b self w).1 =
      { w with table := Function.update w.table i { w.table i with running := b } } := by
  simp only [_pthread_fix_set_running, hi]

/-- C5 (amended): for a live record with `cancel_state` enabled and `cancel_type`
deferred, a run of the handler inside a guarded call (after
`_pthread_fix_set_running (false)`) ends the thread at once through
`_pthread_fix_exit (PTHREAD_CANCELED)` and zeroes the record; a run after
`_pthread_fix_set_running (true)` returns, leaves the record live with only
`cancelled` set, and the next checkpoint ends the thread. -/
theorem handler_deferred (self : Nat) (w : World) (i : Slot)
    (hi : w.this_cancel_info self = some i) (ho : (w.table i).thread = self)
    (hs : (w.table i).cancel_state = PTHREAD_CANCEL_ENABLE)
    (ht : (w.table i).cancel_type = PTHREAD_CANCEL_DEFERRED) :
    _pthread_fix_cancel_handler self (_pthread_fix_set_running false self w).1 =
      ({ table := Function.update w.table i zero_info,
         this_cancel_info := Function.update w.this_cancel_info self none },
        Flow.exited PTHREAD_CANCELED) ∧
    _pthread_fix_cancel_handler self (_pthread_fix_set_running true self w).1 =
      ({ w with table := (Function.update w.table i
          { w.table i with running := true, cancelled := true }) },
        Flow.returned ()) ∧
    pthread_testcancel self
      (_pthread_fix_cancel_handler self (_pthread_fix_set_running true self w).1).1 =
      ({ table := Function.update w.table i zero_info,
         this_cancel_info := Function.update w.this_cancel_info self none },
        Flow.exited PTHREAD_CANCELED) := by
  have hrun : _pthread_fix_cancel_handler self (_pthread_fix_set_running true self w).1 =
      ({ w with table := (Function.update w.table i
          { w.table i with running := true, cancelled := true }) },
        Flow.returned ()) := by
    rw [set_running_eq true self w i hi]
    have h1 := handler_eq self
      { w with table := Function.update w.table i { w.table i with running := true } } i hi
      (by simp only [Function.update_same]; exact ho)
    rw [h1, if_neg]
    · simp only [Function.update_same, Function.update_idem]
    · simp [ht, PTHREAD_CANCEL_DEFERRED, PTHREAD_CANCEL_ASYNCHRONOUS]
  refine ⟨?_, hrun, ?_⟩
  · rw [set_running_eq false self w i hi]
    have h1 := handler_eq self
      { w with table := Function.update w.table i { w.table i with running := false } } i hi
      (by simp only [Function.update_same]; exact ho)
    rw [h1, if_pos]
    · simp only [Function.update_idem]
    · simp only [Function.update_same]
      exact ⟨hs, Or.inr trivial⟩
  · rw [hrun]
    have h1 := testcancel_eq self
      { w with table := (Function.update w.table i
          { w.table i with running := true, cancelled := true }) } i hi
      (by simp only [Function.update_same]; exact ho)
    rw [h1, if_pos]
    · simp only [Function.update_idem]
    · simp only [Function.update_same]
      exact ⟨trivial, hs⟩

theorem handler_deferred_witness :
    (_pthread_fix_cancel_handler 5
      (_pthread_fix_set_running false 5 (World.single zero_info)).1).2 =
        Flow.exited PTHREAD_CANCELED ∧
    (_pthread_fix_cancel_handler 5
      (_pthread_fix_set_running true 5 (World.single zero_info)).1).2 = Flow.returned () := by
  have h := handler_deferred 5 (World.single zero_info) ⟨5, by decide⟩
    (by simp [World.single]) (by simp [World.single])
    (by simp [World.single, zero_info, PTHREAD_CANCEL_ENABLE])
    (by simp [World.single, zero_info, PTHREAD_CANCEL_DEFERRED])
  rw [h.1, h.2.1]
  exact ⟨rfl, rfl⟩

/-! ## Disabled cancellation -/

theorem andThen_returned {α β : Type} (m : World → World × Flow α)
    (k : α → World → World × Flow β) (w w1 : World) (v : α)
    (h : m w = (w1, Flow.returned v)) : andThen m k w = k v w1 := by
  simp only [andThen, h]

theorem pthread_cancel_eq (thread : Nat) (w : World) :
    pthread_cancel thread w =
      match (_pthread_fix_cancel_info_get thread w.table).2 with
      | some j =>
        ({ w with table := Function.update w.table j { w.table j with cancelled := true } }, 0)
      | none => (w, ESRCH) := by
  simp only [pthread_cancel, _pthread_fix_cancel_info_get]

theorem andThen_lift {α β : Type} (f : World → World × α)
    (k : α → World → World × Flow β) (w : World) :
    andThen (lift f) k w = k (f w).2 (f w).1 := by
  simp only [andThen, lift]

theorem update_state_eq (tbl : Table) (i k : Slot) (r : _pthread_fix_cancel_info)
    (h : r.cancel_state = (tbl i).cancel_state) :
    (Function.update tbl i r k).cancel_state = (tbl k).cancel_state := by
  by_cases hk : k = i
  · subst hk
    simp only [Function.update_same, h]
  · simp only [Function.update_noteq hk]

theorem update_cancelled_mono (tbl : Table) (i k : Slot) (r : _pthread_fix_cancel_info)
    (h : (tbl i).cancelled = true → r.cancelled = true) (hk : (tbl k).cancelled = true) :
    (Function.update tbl i r k).cancelled = true := by
  by_cases hki : k = i
  · subst hki
    simp only [Function.update_same]
    exact h hk
  · simp only [Function.update_noteq hki]
    exact hk

theorem setcancelstate_eq (state : Int) (old : Option Int) (self : Nat) (w : World) (i : Slot)
    (hi : w.this_cancel_info self = some i)
    (hs : state = PTHREAD_CANCEL_ENABLE ∨ state = PTHREAD_CANCEL_DISABLE) :
    pthread_setcancelstate state old self w =
      ({ w with table := Function.update w.table i { w.table i with cancel_state := state } },
        (old.map (fun _ => (w.table i).cancel_state), 0)) := by
  have hn : ¬ (state ≠ PTHREAD_CANCEL_ENABLE ∧ state ≠ PTHREAD_CANCEL_DISABLE) := by
    rintro ⟨h1, h2⟩
    cases hs with
    | inl h => exact h1 h
    | inr h => exact h2 h
  simp only [pthread_setcancelstate, hn, if_false, hi]

theorem setcancelstate_record (state : Int) (old : Option Int) (self : Nat) (w : World)
    (i : Slot) (hi : w.this_cancel_info self = some i)
    (hs : state = PTHREAD_CANCEL_ENABLE ∨ state = PTHREAD_CANCEL_DISABLE) :
    (pthread_setcancelstate state old self w).1.this_cancel_info = w.this_cancel_info ∧
    ((pthread_setcancelstate state old self w).1.table i).thread = (w.table i).thread ∧
    ((pthread_setcancelstate state old self w).1.table i).cancel_state = state ∧
    ((pthread_setcancelstate state old self w).1.table i).cancelled =
      (w.table i).cancelled := by
  rw [setcancelstate_eq state old self w i hi hs]
  simp only [Function.update_same, and_self]

theorem pthread_cancel_record (thread : Nat) (w : World) :
    (pthread_cancel thread w).1.this_cancel_info = w.this_cancel_info ∧
    (∀ k, ((pthread_cancel thread w).1.table k).thread = (w.table k).thread) ∧
    (∀ k, ((pthread_cancel thread w).1.table k).cancel_state = (w.table k).cancel_state) ∧
    (∀ k, (w.table k).cancelled = true →
      ((pthread_cancel thread w).1.table k).cancelled = true) := by
  rw [pthread_cancel_eq]
  split
  · refine ⟨rfl, ?_, ?_, ?_⟩
    · intro k
      exact update_thread_eq _ _ _ _ rfl
    · intro k
      exact update_state_eq _ _ _ _ rfl
    · intro k hk
      exact update_cancelled_mono _ _ _ _ (fun _ => rfl) hk
  · exact ⟨rfl, fun _ => rfl, fun _ => rfl, fun _ h => h⟩

theorem handler_disabled (self : Nat) (w : World) (i : Slot)
    (hi : w.this_cancel_info self = some i) (ho : (w.table i).thread = self)
    (hs : (w.table i).cancel_state = PTHREAD_CANCEL_DISABLE) :
    ∃ w3, _pthread_fix_cancel_handler self w = (w3, Flow.returned ()) ∧
      w3.this_cancel_info self = some i ∧ (w3.table i).thread = self ∧
      (w3.table i).cancel_state = PTHREAD_CANCEL_DISABLE ∧ (w3.table i).cancelled = true := by
  have h : _pthread_fix_cancel_handler self w =
      ({ w with table := Function.update w.table i { w.table i with cancelled := true } },
        Flow.returned ()) := by
    rw [handler_eq self w i hi ho, if_neg]
    rw [hs]
    simp [PTHREAD_CANCEL_DISABLE, PTHREAD_CANCEL_ENABLE]
  refine ⟨_, h, ?_, ?_, ?_, ?_⟩
  · exact hi
  · simp only [Function.update_same]
    exact ho
  · simp only [Function.update_same]
    exact hs
  · simp only [Function.update_same]

theorem testcancel_times_disabled (self : Nat) (n : Nat) (w : World) (i : Slot)
    (hi : w.this_cancel_info self = some i) (ho : (w.table i).thread = self)
    (hs : (w.table i).cancel_state = PTHREAD_CANCEL_DISABLE) :
    testcancel_times self n w = (w, Flow.returned ()) := by
  induction n with
  | zero => rfl
  | succ n ih =>
    have h1 : pthread_testcancel self w = (w, Flow.returned ()) := by
      rw [testcancel_eq self w i hi ho, if_neg]
      rw [hs]
      simp [PTHREAD_CANCEL_DISABLE, PTHREAD_CANCEL_ENABLE]
    simp only [testcancel_times]
    rw [andThen_returned _ _ w w () h1]
    exact ih

theorem disabled_sequence_eq (self : Nat) (w : World) (i : Slot)
    (hi : w.this_cancel_info self = some i) (ho : (w.table i).thread = self)
    (old : Option Int) (n : Nat) :
    ∃ w4, disabled_sequence self old n w = (w4, Flow.returned ()) ∧
      w4.this_cancel_info self = some i ∧ (w4.table i).thread = self ∧
      (w4.table i).cancelled = true ∧ (w4.table i).cancel_state = PTHREAD_CANCEL_DISABLE := by
  obtain ⟨h1c, h1t, h1s, _⟩ :=
    setcancelstate_record PTHREAD_CANCEL_DISABLE old self w i hi (Or.inr rfl)
  obtain ⟨h2c, h2t, h2s, _⟩ :=
    pthread_cancel_record self (pthread_setcancelstate PTHREAD_CANCEL_DISABLE old self w).1
  obtain ⟨w3, h3, hi3, ho3, hs3, hc3⟩ := handler_disabled self
    (pthread_cancel self (pthread_setcancelstate PTHREAD_CANCEL_DISABLE old self w).1).1 i
    (by rw [h2c, h1c]; exact hi) (by rw [h2t, h1t]; exact ho) (by rw [h2s, h1s])
  refine ⟨w3, ?_, hi3, ho3, hc3, hs3⟩
  simp only [disabled_sequence]
  rw [andThen_lift, andThen_lift, andThen_returned _ _ _ w3 () h3]
  exact testcancel_times_disabled self n w3 i hi3 ho3 hs3

/-- C7: for a thread with a registered record, after
`pthread_setcancelstate (PTHREAD_CANCEL_DISABLE)`, a `pthread_cancel` on it, a run of
the handler and any number of `pthread_testcancel` calls all return: the thread is not
ended, its record stays live with `cancelled` set; after a following
`pthread_setcancelstate (PTHREAD_CANCEL_ENABLE)` the next `pthread_testcancel` ends it
with `PTHREAD_CANCELED` and frees the record. -/
theorem disabled_then_reenabled (self : Nat) (w : World) (i : Slot)
    (hi : w.this_cancel_info self = some i) (ho : (w.table i).thread = self)
    (old old2 : Option Int) (n : Nat) :
    (∃ w4, disabled_sequence self old n w = (w4, Flow.returned ()) ∧
      w4.this_cancel_info self = some i ∧ (w4.table i).thread = self ∧
      (w4.table i).cancelled = true) ∧
    (∃ w6, reenabled_sequence self old old2 n w = (w6, Flow.exited PTHREAD_CANCELED) ∧
      w6.table i = zero_info ∧ w6.this_cancel_info self = none) := by
  obtain ⟨w4, h4, hi4, ho4, hc4, _⟩ := disabled_sequence_eq self w i hi ho old n
  refine ⟨⟨w4, h4, hi4, ho4, hc4⟩, ?_⟩
  obtain ⟨h5c, h5t, h5s, h5k⟩ :=
    setcancelstate_record PTHREAD_CANCEL_ENABLE old2 self w4 i hi4 (Or.inl rfl)
  have h6 := testcancel_eq self (pthread_setcancelstate PTHREAD_CANCEL_ENABLE old2 self w4).1 i
    (by rw [h5c]; exact hi4) (by rw [h5t]; exact ho4)
  rw [if_pos ⟨by rw [h5k]; exact hc4, h5s⟩] at h6
  have h7 : reenabled_sequence self old old2 n w =
      ({ table := Function.update
            (pthread_setcancelstate PTHREAD_CANCEL_ENABLE old2 self w4).1.table i zero_info,
         this_cancel_info := Function.update
            (pthread_setcancelstate PTHREAD_CANCEL_ENABLE old2 self w4).1.this_cancel_info
            self none },
        Flow.exited PTHREAD_CANCELED) := by
    simp only [reenabled_sequence]
    rw [andThen_returned _ _ w w4 () h4, andThen_lift]
    exact h6
  refine ⟨_, h7, ?_, ?_⟩
  · simp only [Function.update_same]
  · simp only [Function.update_same]

theorem disabled_then_reenabled_witness :
    (∃ w4, disabled_sequence 5 none 3 (World.single zero_info) = (w4, Flow.returned ()) ∧
      w4.this_cancel_info 5 = some ⟨5, by decide⟩ ∧ (w4.table ⟨5, by decide⟩).thread = 5 ∧
      (w4.table ⟨5, by decide⟩).cancelled = true) ∧
    (∃ w6, reenabled_sequence 5 none none 3 (World.single zero_info) =
        (w6, Flow.exited PTHREAD_CANCELED) ∧
      w6.table ⟨5, by decide⟩ = zero_info ∧ w6.this_cancel_info 5 = none) :=
  disabled_then_reenabled 5 (World.single zero_info) ⟨5, by decide⟩
    (by simp [World.single]) (by simp [World.single]) none none 3

/-! ## Cancellation requests and thread id zero -/

theorem pthread_cancel_absent (thread : Nat) (w : World)
    (h : ∀ k, (w.table k).thread ≠ thread) : pthread_cancel thread w = (w, ESRCH) := by
  rw [pthread_cancel_eq, (cancel_info_get_none_iff thread w.table).mpr h]

theorem pthread_cancel_present (thread : Nat) (w : World)
    (h : ∃ k, (w.table k).thread = thread) :
    ∃ j, (w.table j).thread = thread ∧
      pthread_cancel thread w =
        ({ w with table := Function.update w.table j { w.table j with cancelled := true } },
          0) := by
  cases hl : (_pthread_fix_cancel_info_get thread w.table).2 with
  | none =>
    obtain ⟨k, hk⟩ := h
    exact absurd hk ((cancel_info_get_none_iff thread w.table).mp hl k)
  | some j =>
    refine ⟨j, cancel_info_get_some thread w.table j hl, ?_⟩
    rw [pthread_cancel_eq, hl]

/-- C8 (the code at the failing input): on the all-zero table, where no thread is
registered, `pthread_cancel (0)` returns `0` instead of `ESRCH` and sets `cancelled` in
the free slot `0`. -/
theorem pthread_cancel_zero_id :
    (∀ k : Slot, (World.init.table k).thread = 0) ∧
    (∀ t : Nat, World.init.this_cancel_info t = none) ∧
    (pthread_cancel 0 World.init).2 = 0 ∧
    (World.init.table ⟨0, by decide⟩).cancelled = false ∧
    ((pthread_cancel 0 World.init).1.table ⟨0, by decide⟩).cancelled = true := by
  refine ⟨fun _ => rfl, fun _ => rfl, by decide, rfl, by decide⟩

/-! ## Termination frees the record -/

theorem freed_world_spec (w : World) (t : Nat) (i : Slot)
    (hu : UniqueIds w.table) (hh : HandlesOwned w)
    (hi : w.this_cancel_info t = some i) (w1 : World)
    (hw1 : w1 = { table := Function.update w.table i zero_info,
                  this_cancel_info := Function.update w.this_cancel_info t none }) :
    w1.table i = zero_info ∧
    (_pthread_fix_cancel_info_get t w1.table).2 = none ∧
    pthread_cancel t w1 = (w1, ESRCH) ∧
    (∀ k, k ≠ i → w1.table k = w.table k) ∧
    (∀ u, u ≠ t → w1.this_cancel_info u = w.this_cancel_info u) ∧
    (Op.create 0 t).admissible w1 ∧
    (_pthread_fix_create 0 t w1).2 = some 0 ∧
    (∃ s, (_pthread_fix_create 0 t w1).1.this_cancel_info t = some s ∧
      ((_pthread_fix_create 0 t w1).1.table s).thread = t) := by
  obtain ⟨ho, h0⟩ := hh t i hi
  have hzero : w1.table i = zero_info := by
    rw [hw1]
    simp only [Function.update_same]
  have habs : ∀ k, (w1.table k).thread ≠ t := by
    intro k hk
    by_cases hki : k = i
    · subst hki
      rw [hzero] at hk
      exact h0 hk.symm
    · rw [hw1] at hk
      simp only [Function.update_noteq hki] at hk
      exact hki (hu k i (hk.trans ho.symm) (by rw [hk]; exact h0))
  have hfree : ∃ k, (w1.table k).thread = 0 := ⟨i, by rw [hzero]; rfl⟩
  obtain ⟨s, _, _, hreg⟩ := start_wrap_register_free t
    { return_code := 0, complete := false } w1 hfree
  refine ⟨hzero, (cancel_info_get_none_iff t w1.table).mpr habs, pthread_cancel_absent t w1 habs,
    ?_, ?_, fun _ => ⟨h0, habs⟩, ?_, ?_⟩
  · intro k hk
    rw [hw1]
    simp only [Function.update_noteq hk]
  · intro u hu2
    rw [hw1]
    simp only [Function.update_noteq hu2]
  · rw [create_eq, hreg]
  · refine ⟨s, ?_, ?_⟩
    · rw [create_eq, hreg]
      simp only [Function.update_same]
    · rw [create_eq, hreg]
      simp only [Function.update_same]

theorem start_wrap_on_return (t : Nat) (start_routine : World → World × Flow Int)
    (w0 : World) (i0 : _pthread_fix_start_info) (w : World) (ret : Int) (i : Slot)
    (hreg : (start_wrap_register t i0 w0).registered = true)
    (hsr : start_routine (start_wrap_register t i0 w0).world = (w, Flow.returned ret))
    (hi : w.this_cancel_info t = some i) (ho : (w.table i).thread = t) :
    _pthread_start_wrap t start_routine i0 w0 =
      (({ table := Function.update w.table i zero_info,
          this_cancel_info := Function.update w.this_cancel_info t none },
        (start_wrap_register t i0 w0).info), Flow.exited ret) := by
  simp only [_pthread_start_wrap, hreg, hsr, exit_world ret t w i hi ho]
  rfl

/-- C9: in a reachable world with a live thread `t`, `_pthread_fix_exit` on `t` ends
the thread; whenever `t` ends through `_pthread_fix_exit`, called directly, from
`pthread_testcancel` or from the handler, its slot is all zero, the lookup of `t`
returns `NULL`, `pthread_cancel (t)` returns `ESRCH` and changes nothing, all other
slots and handles are unchanged, and a following `_pthread_fix_create` that starts a
thread with id `t` is admissible, returns `0` and registers `t`. When the start routine
of `t` returns `ret` normally in that world, `_pthread_start_wrap` (lines 144-146) ends
the thread through `_pthread_fix_exit (ret)` and leaves a world with the same
properties. -/
theorem exit_frees_record (w : World) (t : Nat) (i : Slot) (hr : Reachable w)
    (hi : w.this_cancel_info t = some i) :
    (∀ retval : Int, (_pthread_fix_exit retval t w).2 = Flow.exited retval) ∧
    (∀ (w1 : World) (r : Int),
      (_pthread_fix_exit r t w = (w1, Flow.exited r) ∨
        pthread_testcancel t w = (w1, Flow.exited r) ∨
        _pthread_fix_cancel_handler t w = (w1, Flow.exited r)) →
      w1.table i = zero_info ∧
      (_pthread_fix_cancel_info_get t w1.table).2 = none ∧
      pthread_cancel t w1 = (w1, ESRCH) ∧
      (∀ k, k ≠ i → w1.table k = w.table k) ∧
      (∀ u, u ≠ t → w1.this_cancel_info u = w.this_cancel_info u) ∧
      (Op.create 0 t).admissible w1 ∧
      (_pthread_fix_create 0 t w1).2 = some 0 ∧
      (∃ s, (_pthread_fix_create 0 t w1).1.this_cancel_info t = some s ∧
        ((_pthread_fix_create 0 t w1).1.table s).thread = t)) ∧
    (∀ (start_routine : World → World × Flow Int) (w0 : World)
      (i0 : _pthread_fix_start_info) (ret : Int),
      (start_wrap_register t i0 w0).registered = true →
      start_routine (start_wrap_register t i0 w0).world = (w, Flow.returned ret) →
      ∃ w1 : World,
        _pthread_start_wrap t start_routine i0 w0 =
          ((w1, (start_wrap_register t i0 w0).info), Flow.exited ret) ∧
        _pthread_fix_exit ret t w = (w1, Flow.exited ret) ∧
        w1.table i = zero_info ∧
        (_pthread_fix_cancel_info_get t w1.table).2 = none ∧
        pthread_cancel t w1 = (w1, ESRCH) ∧
        (∀ k, k ≠ i → w1.table k = w.table k) ∧
        (∀ u, u ≠ t → w1.this_cancel_info u = w.this_cancel_info u) ∧
        (Op.create 0 t).admissible w1 ∧
        (_pthread_fix_create 0 t w1).2 = some 0 ∧
        (∃ s, (_pthread_fix_create 0 t w1).1.this_cancel_info t = some s ∧
          ((_pthread_fix_create 0 t w1).1.table s).thread = t)) := by
  obtain ⟨hu, hh⟩ := reachable_invariant w hr
  have ho := (hh t i hi).1
  refine ⟨?_, ?_, ?_⟩
  · intro retval
    rw [exit_world retval t w i hi ho]
  · intro w1 r hex
    apply freed_world_spec w t i hu hh hi w1
    rcases hex with h | h | h
    · rw [exit_world r t w i hi ho] at h
      exact (Prod.mk.inj h).1.symm
    · rw [testcancel_eq t w i hi ho] at h
      split at h
      · exact (Prod.mk.inj h).1.symm
      · cases (Prod.mk.inj h).2
    · rw [handler_eq t w i hi ho] at h
      split at h
      · exact (Prod.mk.inj h).1.symm
      · cases (Prod.mk.inj h).2
  · intro start_routine w0 i0 ret hreg hsr
    exact ⟨_, start_wrap_on_return t start_routine w0 i0 w ret i hreg hsr hi ho,
      exit_world ret t w i hi ho, freed_world_spec w t i hu hh hi _ rfl⟩

theorem exit_frees_record_witness :
    Reachable ((Op.create 0 5).step World.init) ∧
    ((Op.create 0 5).step World.init).this_cancel_info 5 = some ⟨5, by decide⟩ ∧
    (_pthread_fix_exit 7 5 ((Op.create 0 5).step World.init)).2 = Flow.exited 7 ∧
    pthread_cancel 5 (_pthread_fix_exit 7 5 ((Op.create 0 5).step World.init)).1 =
      ((_pthread_fix_exit 7 5 ((Op.create 0 5).step World.init)).1, ESRCH) ∧
    (∃ w1 : World,
      _pthread_start_wrap 5 (fun w2 => (w2, Flow.returned 7))
          { return_code := 0, complete := false } World.init =
        ((w1, { return_code := 0, complete := true }), Flow.exited 7) ∧
      w1.table ⟨5, by decide⟩ = zero_info ∧
      pthread_cancel 5 w1 = (w1, ESRCH)) :=
  have hr : Reachable ((Op.create 0 5).step World.init) :=
    Reachable.step World.init (Op.create 0 5) Reachable.init
      (fun _ => ⟨by decide, fun k => by simp [World.init, zero_info]⟩)
  have hi : ((Op.create 0 5).step World.init).this_cancel_info 5 = some ⟨5, by decide⟩ := by
    decide
  have h := exit_frees_record ((Op.create 0 5).step World.init) 5 ⟨5, by decide⟩ hr hi
  have hw := h.2.2 (fun w2 => (w2, Flow.returned 7)) World.init
    { return_code := 0, complete := false } 7 (by decide) rfl
  ⟨hr, hi, h.1 7, (h.2.1 _ 7 (Or.inl (Prod.ext rfl (h.1 7)))).2.2.1,
    hw.elim fun w1 hw1 => ⟨w1, hw1.1, hw1.2.2.1, hw1.2.2.2.2.1⟩⟩

/-- C10 (the code at the failing input): from the all-zero table, `pthread_cancel (0)`
followed by an admissible `_pthread_fix_create` that starts thread `512` gives a
reachable world in which the creation returned `0` and the record registered for
thread `512`, in slot `0`, has `cancelled` set. -/
theorem registration_after_cancel_zero :
    Reachable ((Op.create 0 512).step ((Op.cancel 0).step World.init)) ∧
    (Op.create 0 512).admissible ((Op.cancel 0).step World.init) ∧
    (_pthread_fix_create 0 512 ((Op.cancel 0).step World.init)).2 = some 0 ∧
    (_pthread_fix_create 0 512 ((Op.cancel 0).step World.init)).1.this_cancel_info 512 =
      some ⟨0, by decide⟩ ∧
    ((_pthread_fix_create 0 512 ((Op.cancel 0).step World.init)).1.table ⟨0, by decide⟩).thread =
      512 ∧
    ((_pthread_fix_create 0 512 ((Op.cancel 0).step World.init)).1.table
      ⟨0, by decide⟩).cancelled = true := by
  have hadm : (Op.create 0 512).admissible ((Op.cancel 0).step World.init) := by
    intro _
    refine ⟨by decide, fun k => ?_⟩
    show ((pthread_cancel 0 World.init).1.table k).thread ≠ 512
    rw [(pthread_cancel_record 0 World.init).2.1 k]
    simp [World.init, zero_info]
  refine ⟨?_, hadm, by decide, by decide, by decide, by decide⟩
  exact Reachable.step _ (Op.create 0 512)
    (Reachable.step World.init (Op.cancel 0) Reachable.init trivial) hadm

/-! ## Repeated cancellation requests -/

theorem cancel_info_get_loop_congr (tbl tbl1 : Table)
    (h : ∀ k, (tbl1 k).thread = (tbl k).thread) (thread start n i : Nat) :
    cancel_info_get_loop tbl1 thread start n i = cancel_info_get_loop tbl thread start n i := by
  induction n generalizing i with
  | zero => rfl
  | succ n ih => simp only [cancel_info_get_loop, h, ih]

theorem cancel_info_get_congr (tbl tbl1 : Table)
    (h : ∀ k, (tbl1 k).thread = (tbl k).thread) (thread : Nat) :
    (_pthread_fix_cancel_info_get thread tbl1).2 = (_pthread_fix_cancel_info_get thread tbl).2 := by
  simp only [_pthread_fix_cancel_info_get]
  exact cancel_info_get_loop_congr tbl tbl1 h thread _ _ _

/-- C11: `pthread_cancel` is idempotent on the registry: for every world and thread id,
a second call right after the first leaves the world the first call left and returns
the same code. -/
theorem pthread_cancel_idempotent (thread : Nat) (w : World) :
    pthread_cancel thread (pthread_cancel thread w).1 = pthread_cancel thread w := by
  cases hl : (_pthread_fix_cancel_info_get thread w.table).2 with
  | none =>
    have h1 : pthread_cancel thread w = (w, ESRCH) := by rw [pthread_cancel_eq, hl]
    rw [h1]
    exact h1
  | some j =>
    have h1 : pthread_cancel thread w =
        ({ w with table := Function.update w.table j { w.table j with cancelled := true } },
          0) := by
      rw [pthread_cancel_eq, hl]
    have hl2 : (_pthread_fix_cancel_info_get thread
        (Function.update w.table j { w.table j with cancelled := true })).2 = some j := by
      have hc := cancel_info_get_congr w.table
        (Function.update w.table j { w.table j with cancelled := true })
        (fun k => update_thread_eq w.table j k _ rfl) thread
      rw [hc, hl]
    rw [h1, pthread_cancel_eq]
    simp only [hl2, Function.update_same, Function.update_idem]

/-! ## The setters -/

theorem setcanceltype_eq (type : Int) (old : Option Int) (self : Nat) (w : World) (i : Slot)
    (hi : w.this_cancel_info self = some i)
    (hs : type = PTHREAD_CANCEL_ASYNCHRONOUS ∨ type = PTHREAD_CANCEL_DEFERRED) :
    pthread_setcanceltype type old self w =
      ({ w with table := Function.update w.table i { w.table i with cancel_type := type } },
        (old.map (fun _ => (w.table i).cancel_type), 0)) := by
  have hn : ¬ (type ≠ PTHREAD_CANCEL_ASYNCHRONOUS ∧ type ≠ PTHREAD_CANCEL_DEFERRED) := by
    rintro ⟨h1, h2⟩
    cases hs with
    | inl h => exact h1 h
    | inr h => exact h2 h
  simp only [pthread_setcanceltype, hn, if_false, hi]

/-- C12: for a thread with a registered record in any cancel state,
`pthread_setcancelstate (PTHREAD_CANCEL_DISABLE, _)` followed by
`pthread_setcancelstate (PTHREAD_CANCEL_ENABLE, &old)` stores `PTHREAD_CANCEL_DISABLE`
in `old` and leaves `cancel_state` enabled; each setter, called with a legal value and
a non-`NULL` pointer, stores in `*old` the value its field held before the call, writes
the new value into that field only, and returns `0`. -/
theorem setters_store_previous (self : Nat) (w : World) (i : Slot)
    (hi : w.this_cancel_info self = some i) :
    (∀ (old0 : Option Int) (v : Int),
      (pthread_setcancelstate PTHREAD_CANCEL_ENABLE (some v) self
        (pthread_setcancelstate PTHREAD_CANCEL_DISABLE old0 self w).1).2 =
          (some PTHREAD_CANCEL_DISABLE, 0) ∧
      ((pthread_setcancelstate PTHREAD_CANCEL_ENABLE (some v) self
        (pthread_setcancelstate PTHREAD_CANCEL_DISABLE old0 self w).1).1.table i).cancel_state =
          PTHREAD_CANCEL_ENABLE) ∧
    (∀ (state v : Int), state = PTHREAD_CANCEL_ENABLE ∨ state = PTHREAD_CANCEL_DISABLE →
      pthread_setcancelstate state (some v) self w =
        ({ w with table := Function.update w.table i { w.table i with cancel_state := state } },
          (some (w.table i).cancel_state, 0))) ∧
    (∀ (type v : Int), type = PTHREAD_CANCEL_ASYNCHRONOUS ∨ type = PTHREAD_CANCEL_DEFERRED →
      pthread_setcanceltype type (some v) self w =
        ({ w with table := Function.update w.table i { w.table i with cancel_type := type } },
          (some (w.table i).cancel_type, 0))) := by
  refine ⟨?_, ?_, ?_⟩
  · intro old0 v
    have h1 := setcancelstate_record PTHREAD_CANCEL_DISABLE old0 self w i hi (Or.inr rfl)
    have h2 := setcancelstate_eq PTHREAD_CANCEL_ENABLE (some v) self
      (pthread_setcancelstate PTHREAD_CANCEL_DISABLE old0 self w).1 i
      (by rw [h1.1]; exact hi) (Or.inl rfl)
    rw [h2]
    constructor
    · simp only [Option.map_some', h1.2.2.1]
    · simp only [Function.update_same]
  · intro state v hs
    rw [setcancelstate_eq state (some v) self w i hi hs]
    rfl
  · intro type v hs
    rw [setcanceltype_eq type (some v) self w i hi hs]
    rfl

theorem setters_store_previous_witness :
    (pthread_setcancelstate PTHREAD_CANCEL_ENABLE (some 7) 5
      (pthread_setcancelstate PTHREAD_CANCEL_DISABLE none 5 (World.single zero_info)).1).2 =
        (some PTHREAD_CANCEL_DISABLE, 0) ∧
    ((pthread_setcancelstate PTHREAD_CANCEL_ENABLE (some 7) 5
      (pthread_setcancelstate PTHREAD_CANCEL_DISABLE none 5
        (World.single zero_info)).1).1.table ⟨5, by decide⟩).cancel_state =
          PTHREAD_CANCEL_ENABLE :=
  (setters_store_previous 5 (World.single zero_info) ⟨5, by decide⟩
    (by simp [World.single])).1 none 7

/-- C13: for every `int` other than `PTHREAD_CANCEL_ENABLE` and
`PTHREAD_CANCEL_DISABLE`, `pthread_setcancelstate` returns `EINVAL` and changes neither
the world nor `*oldstate`; for every `int` other than `PTHREAD_CANCEL_DEFERRED` and
`PTHREAD_CANCEL_ASYNCHRONOUS`, `pthread_setcanceltype` returns `EINVAL` and changes
neither the world nor `*oldtype`; for the two legal values each setter returns `0`. -/
theorem setters_reject_invalid (self : Nat) (w : World) (old : Option Int) :
    (∀ state : Int, state ≠ PTHREAD_CANCEL_ENABLE → state ≠ PTHREAD_CANCEL_DISABLE →
      pthread_setcancelstate state old self w = (w, (old, EINVAL))) ∧
    (∀ type : Int, type ≠ PTHREAD_CANCEL_DEFERRED → type ≠ PTHREAD_CANCEL_ASYNCHRONOUS →
      pthread_setcanceltype type old self w = (w, (old, EINVAL))) ∧
    (∀ state : Int, state = PTHREAD_CANCEL_ENABLE ∨ state = PTHREAD_CANCEL_DISABLE →
      (pthread_setcancelstate state old self w).2.2 = 0) ∧
    (∀ type : Int, type = PTHREAD_CANCEL_DEFERRED ∨ type = PTHREAD_CANCEL_ASYNCHRONOUS →
      (pthread_setcanceltype type old self w).2.2 = 0) := by
  refine ⟨?_, ?_, ?_, ?_⟩
  · intro state h1 h2
    simp only [pthread_setcancelstate, h1, h2, ne_eq, not_false_eq_true, and_self, if_true]
  · intro type h1 h2
    simp only [pthread_setcanceltype, h1, h2, ne_eq, not_false_eq_true, and_self, if_true]
  · intro state hs
    have hn : ¬ (state ≠ PTHREAD_CANCEL_ENABLE ∧ state ≠ PTHREAD_CANCEL_DISABLE) := by
      rintro ⟨h1, h2⟩
      cases hs with
      | inl h => exact h1 h
      | inr h => exact h2 h
    simp only [pthread_setcancelstate, hn, if_false]
    split <;> rfl
  · intro type hs
    have hn : ¬ (type ≠ PTHREAD_CANCEL_ASYNCHRONOUS ∧ type ≠ PTHREAD_CANCEL_DEFERRED) := by
      rintro ⟨h1, h2⟩
      cases hs with
      | inl h => exact h2 h
      | inr h => exact h1 h
    simp only [pthread_setcanceltype, hn, if_false]
    split <;> rfl

theorem setters_reject_invalid_witness :
    pthread_setcancelstate 2 (some 9) 5 (World.single zero_info) =
      (World.single zero_info, (some 9, EINVAL)) ∧
    pthread_setcanceltype (-1) (some 9) 5 (World.single zero_info) =
      (World.single zero_info, (some 9, EINVAL)) ∧
    (pthread_setcancelstate PTHREAD_CANCEL_DISABLE (some 9) 5 (World.single zero_info)).2.2 = 0 :=
  ⟨(setters_reject_invalid 5 (World.single zero_info) (some 9)).1 2 (by decide) (by decide),
   (setters_reject_invalid 5 (World.single zero_info) (some 9)).2.1 (-1) (by decide) (by decide),
   (setters_reject_invalid 5 (World.single zero_info) (some 9)).2.2.1 PTHREAD_CANCEL_DISABLE
     (Or.inr rfl)⟩

/-! ## Threads without a record -/

/-- C20: when the calling thread's handle is `NULL`, `pthread_testcancel`,
`_pthread_fix_set_running` and the handler return and leave the world unchanged, and
`pthread_setcancelstate` and `pthread_setcanceltype` with a legal value return `0`,
leave `*oldstate` and `*oldtype` as they were and leave the world unchanged. -/
theorem unregistered_thread_noop (self : Nat) (w : World)
    (hn : w.this_cancel_info self = none) :
    pthread_testcancel self w = (w, Flow.returned ()) ∧
    (∀ b : Bool, _pthread_fix_set_running b self w = (w, ())) ∧
    _pthread_fix_cancel_handler self w = (w, Flow.returned ()) ∧
    (∀ (state : Int) (old : Option Int),
      state = PTHREAD_CANCEL_ENABLE ∨ state = PTHREAD_CANCEL_DISABLE →
      pthread_setcancelstate state old self w = (w, (old, 0))) ∧
    (∀ (type : Int) (old : Option Int),
      type = PTHREAD_CANCEL_DEFERRED ∨ type = PTHREAD_CANCEL_ASYNCHRONOUS →
      pthread_setcanceltype type old self w = (w, (old, 0))) := by
  refine ⟨?_, ?_, ?_, ?_, ?_⟩
  · simp only [pthread_testcancel, hn]
  · intro b
    simp only [_pthread_fix_set_running, hn]
  · simp only [_pthread_fix_cancel_handler, hn]
  · intro state old hs
    have hl : ¬ (state ≠ PTHREAD_CANCEL_ENABLE ∧ state ≠ PTHREAD_CANCEL_DISABLE) := by
      rintro ⟨h1, h2⟩
      cases hs with
      | inl h => exact h1 h
      | inr h => exact h2 h
    simp only [pthread_setcancelstate, hl, if_false, hn]
  · intro type old hs
    have hl : ¬ (type ≠ PTHREAD_CANCEL_ASYNCHRONOUS ∧ type ≠ PTHREAD_CANCEL_DEFERRED) := by
      rintro ⟨h1, h2⟩
      cases hs with
      | inl h => exact h2 h
      | inr h => exact h1 h
    simp only [pthread_setcanceltype, hl, if_false, hn]

theorem unregistered_thread_noop_witness :
    (World.single { zero_info with cancelled := true }).this_cancel_info 9 = none ∧
    pthread_testcancel 9 (World.single { zero_info with cancelled := true }) =
      (World.single { zero_info with cancelled := true }, Flow.returned ()) ∧
    _pthread_fix_cancel_handler 9 (World.single { zero_info with cancelled := true }) =
      (World.single { zero_info with cancelled := true }, Flow.returned ()) :=
  have hn : (World.single { zero_info with cancelled := true }).this_cancel_info 9 = none := by
    simp [World.single, World.init]
  ⟨hn, (unregistered_thread_noop 9 _ hn).1, (unregistered_thread_noop 9 _ hn).2.2.1⟩

/-! ## The cancelled flag is only cleared by termination -/

theorem exit_not_returned (retval : Int) (self : Nat) (w w1 : World) :
    _pthread_fix_exit retval self w ≠ (w1, Flow.returned ()) := by
  intro h
  simp only [_pthread_fix_exit] at h
  split at h
  · cases (Prod.mk.inj h).2
  · split at h
    · cases (Prod.mk.inj h).2
    · cases (Prod.mk.inj h).2

theorem exit_cancelled (retval : Int) (self : Nat) (w : World) (k : Slot)
    (hc : (w.table k).cancelled = true) :
    ((_pthread_fix_exit retval self w).1.table k).cancelled = true ∨
      (w.this_cancel_info self = some k ∧ (w.table k).thread = self) := by
  cases hi : w.this_cancel_info self with
  | none =>
    left
    simp only [_pthread_fix_exit, hi]
    exact hc
  | some i =>
    by_cases ho : (w.table i).thread = self
    · by_cases hk : k = i
      · right
        subst hk
        exact ⟨rfl, ho⟩
      · left
        rw [exit_world retval self w i hi ho]
        simp only [Function.update_noteq hk]
        exact hc
    · left
      simp only [_pthread_fix_exit, hi, ho, if_false]
      exact hc

theorem update_cancelled_eq (tbl : Table) (i k : Slot) (r : _pthread_fix_cancel_info)
    (h : r.cancelled = (tbl i).cancelled) :
    (Function.update tbl i r k).cancelled = (tbl k).cancelled := by
  by_cases hk : k = i
  · subst hk
    simp only [Function.update_same, h]
  · simp only [Function.update_noteq hk]

theorem handler_cancelled (self : Nat) (w : World) (k : Slot)
    (hc : (w.table k).cancelled = true) :
    ((_pthread_fix_cancel_handler self w).1.table k).cancelled = true ∨
      (w.this_cancel_info self = some k ∧ (w.table k).thread = self) := by
  cases hi : w.this_cancel_info self with
  | none =>
    left
    simp only [_pthread_fix_cancel_handler, hi]
    exact hc
  | some i =>
    have hc1 : (Function.update w.table i { w.table i with cancelled := true } k).cancelled =
        true := update_cancelled_mono _ _ _ _ (fun _ => rfl) hc
    simp only [_pthread_fix_cancel_handler, hi]
    split
    · split
      · have he := exit_cancelled PTHREAD_CANCELED self
          { w with table := Function.update w.table i { w.table i with cancelled := true } } k hc1
        cases he with
        | inl h => exact Or.inl h
        | inr h =>
          right
          refine ⟨hi.symm ▸ h.1, ?_⟩
          exact (update_thread_eq w.table i k { w.table i with cancelled := true } rfl).symm.trans
            h.2
      · exact Or.inl hc1
    · exact Or.inl hc1

theorem testcancel_cancelled (self : Nat) (w : World) (k : Slot)
    (hc : (w.table k).cancelled = true) :
    ((pthread_testcancel self w).1.table k).cancelled = true ∨
      (w.this_cancel_info self = some k ∧ (w.table k).thread = self) := by
  simp only [pthread_testcancel]
  split
  · split
    · split
      · exact exit_cancelled PTHREAD_CANCELED self w k hc
      · exact Or.inl hc
    · exact Or.inl hc
  · exact Or.inl hc

theorem register_cancelled (self : Nat) (i : _pthread_fix_start_info) (w : World) (k : Slot) :
    ((start_wrap_register self i w).world.table k).cancelled = (w.table k).cancelled := by
  simp only [start_wrap_register]
  split
  · rfl
  · exact update_cancelled_eq _ _ _ _ rfl

theorem create_cancelled (native_ret : Int) (self : Nat) (w : World) (k : Slot) :
    ((_pthread_fix_create native_ret self w).1.table k).cancelled = (w.table k).cancelled := by
  simp only [_pthread_fix_create]
  split
  · rfl
  · split <;> exact register_cancelled self _ w k

/-- C14: a set `cancelled` flag stays set under `pthread_cancel`, under the handler and
`pthread_testcancel` when they return, under both setters, under
`_pthread_fix_set_running` and under every registration; and whenever any operation
leaves the flag of a slot cleared, that operation is `_pthread_fix_exit`, the handler
or `pthread_testcancel` run by the thread that owns the slot. -/
theorem cancelled_stays_set (w : World) (k : Slot) (hc : (w.table k).cancelled = true) :
    (∀ t : Nat, ((pthread_cancel t w).1.table k).cancelled = true) ∧
    (∀ (self : Nat) (w1 : World), _pthread_fix_cancel_handler self w = (w1, Flow.returned ()) →
      (w1.table k).cancelled = true) ∧
    (∀ (self : Nat) (w1 : World), pthread_testcancel self w = (w1, Flow.returned ()) →
      (w1.table k).cancelled = true) ∧
    (∀ (state : Int) (old : Option Int) (self : Nat),
      ((pthread_setcancelstate state old self w).1.table k).cancelled = true) ∧
    (∀ (type : Int) (old : Option Int) (self : Nat),
      ((pthread_setcanceltype type old self w).1.table k).cancelled = true) ∧
    (∀ (b : Bool) (self : Nat), ((_pthread_fix_set_running b self w).1.table k).cancelled = true) ∧
    (∀ (self : Nat) (i : _pthread_fix_start_info),
      ((start_wrap_register self i w).world.table k).cancelled = true) ∧
    (∀ op : Op, ((op.step w).table k).cancelled = true ∨
      ∃ self : Nat, w.this_cancel_info self = some k ∧ (w.table k).thread = self ∧
        ((∃ r, op = Op.exit r self) ∨ op = Op.handler self ∨ op = Op.testcancel self)) := by
  have hcancel : ∀ t : Nat, ((pthread_cancel t w).1.table k).cancelled = true :=
    fun t => (pthread_cancel_record t w).2.2.2 k hc
  have hstate : ∀ (state : Int) (old : Option Int) (self : Nat),
      ((pthread_setcancelstate state old self w).1.table k).cancelled = true := by
    intro state old self
    simp only [pthread_setcancelstate]
    split
    · exact hc
    · split
      · refine Eq.trans (update_cancelled_eq _ _ _ _ ?_) hc
        rfl
      · exact hc
  have htype : ∀ (type : Int) (old : Option Int) (self : Nat),
      ((pthread_setcanceltype type old self w).1.table k).cancelled = true := by
    intro type old self
    simp only [pthread_setcanceltype]
    split
    · exact hc
    · split
      · refine Eq.trans (update_cancelled_eq _ _ _ _ ?_) hc
        rfl
      · exact hc
  have hrun : ∀ (b : Bool) (self : Nat),
      ((_pthread_fix_set_running b self w).1.table k).cancelled = true := by
    intro b self
    simp only [_pthread_fix_set_running]
    split
    · refine Eq.trans (update_cancelled_eq _ _ _ _ ?_) hc
      rfl
    · exact hc
  refine ⟨hcancel, ?_, ?_, hstate, htype, hrun, ?_, ?_⟩
  · intro self w1 h
    cases hi : w.this_cancel_info self with
    | none =>
      simp only [_pthread_fix_cancel_handler, hi] at h
      rw [← (Prod.mk.inj h).1]
      exact hc
    | some i =>
      have hc1 : (Function.update w.table i { w.table i with cancelled := true } k).cancelled =
          true := update_cancelled_mono _ _ _ _ (fun _ => rfl) hc
      simp only [_pthread_fix_cancel_handler, hi] at h
      split at h
      · split at h
        · exact absurd h (exit_not_returned _ _ _ _)
        · rw [← (Prod.mk.inj h).1]
          exact hc1
      · rw [← (Prod.mk.inj h).1]
        exact hc1
  · intro self w1 h
    simp only [pthread_testcancel] at h
    split at h
    · split at h
      · split at h
        · exact absurd h (exit_not_returned _ _ _ _)
        · rw [← (Prod.mk.inj h).1]
          exact hc
      · rw [← (Prod.mk.inj h).1]
        exact hc
    · rw [← (Prod.mk.inj h).1]
      exact hc
  · intro self i
    rw [register_cancelled]
    exact hc
  · intro op
    cases op with
    | create native_ret newthread =>
      left
      simp only [Op.step]
      rw [create_cancelled]
      exact hc
    | exit retval self =>
      cases exit_cancelled retval self w k hc with
      | inl h => exact Or.inl h
      | inr h => exact Or.inr ⟨self, h.1, h.2, Or.inl ⟨retval, rfl⟩⟩
    | cancel thread => exact Or.inl (hcancel thread)
    | handler self =>
      cases handler_cancelled self w k hc with
      | inl h => exact Or.inl h
      | inr h => exact Or.inr ⟨self, h.1, h.2, Or.inr (Or.inl rfl)⟩
    | testcancel self =>
      cases testcancel_cancelled self w k hc with
      | inl h => exact Or.inl h
      | inr h => exact Or.inr ⟨self, h.1, h.2, Or.inr (Or.inr rfl)⟩
    | setcancelstate state oldstate self => exact Or.inl (hstate state oldstate self)
    | setcanceltype type oldtype self => exact Or.inl (htype type oldtype self)
    | set_running running self => exact Or.inl (hrun running self)

theorem cancelled_stays_set_witness :
    ((World.single { zero_info with cancelled := true }).table ⟨5, by decide⟩).cancelled = true ∧
    (∀ t : Nat, ((pthread_cancel t
      (World.single { zero_info with cancelled := true })).1.table ⟨5, by decide⟩).cancelled =
        true) :=
  have hc : ((World.single { zero_info with cancelled := true }).table
      ⟨5, by decide⟩).cancelled = true := by
    simp [World.single]
  ⟨hc, (cancelled_stays_set _ ⟨5, by decide⟩ hc).1⟩

/-! ## The probe sequence -/

theorem start_index_lt (t : Nat) : t &&& THREADS_MAX_MASK < THREADS_MAX :=
  Nat.lt_succ_of_le Nat.and_le_right

/-- C18: for every thread id the start index `thread & THREADS_MAX_MASK` is below 512
(for a signed id it is the id modulo 512); every probe index
`(i + start) & THREADS_MAX_MASK` is below 512; the 512 probe indices `i = 0..511` visit
every slot exactly once; and either scan gives up only when no slot of the table passes
its test. -/
theorem probe_visits_all (t : Nat) :
    t &&& THREADS_MAX_MASK < THREADS_MAX ∧
    (∀ v : Int, -2 ^ 63 ≤ v → v < 2 ^ 63 →
      pthread_t_bits v &&& THREADS_MAX_MASK < THREADS_MAX ∧
      ((pthread_t_bits v &&& THREADS_MAX_MASK : Nat) : Int) = v % 512) ∧
    (∀ i : Nat, (i + (t &&& THREADS_MAX_MASK)) &&& THREADS_MAX_MASK < THREADS_MAX ∧
      (probe (t &&& THREADS_MAX_MASK) i).val = (i + (t &&& THREADS_MAX_MASK)) &&& THREADS_MAX_MASK) ∧
    (∀ k : Slot, ∃ i, (i < THREADS_MAX ∧ probe (t &&& THREADS_MAX_MASK) i = k) ∧
      ∀ j, j < THREADS_MAX ∧ probe (t &&& THREADS_MAX_MASK) j = k → j = i) ∧
    (∀ tbl : Table, (_pthread_fix_cancel_info_get t tbl).2 = none →
      ∀ k : Slot, (tbl k).thread ≠ t) ∧
    (∀ tbl : Table, start_wrap_loop tbl (t &&& THREADS_MAX_MASK) THREADS_MAX 0 = none →
      ∀ k : Slot, (tbl k).thread ≠ 0) := by
  refine ⟨start_index_lt t, ?_, ?_, ?_, ?_, ?_⟩
  · intro v h1 h2
    refine ⟨start_index_lt _, ?_⟩
    have hm : pthread_t_bits v &&& THREADS_MAX_MASK = pthread_t_bits v % 512 := by
      show pthread_t_bits v &&& (2 ^ 9 - 1) = pthread_t_bits v % 2 ^ 9
      exact Nat.and_pow_two_sub_one_eq_mod _ 9
    rw [hm]
    simp only [pthread_t_bits]
    omega
  · intro i
    exact ⟨Nat.lt_succ_of_le Nat.and_le_right, rfl⟩
  · intro k
    obtain ⟨i, hi, hk⟩ := probe_cover (t &&& THREADS_MAX_MASK) k
    refine ⟨i, ⟨hi, hk⟩, ?_⟩
    rintro j ⟨hj, hjk⟩
    exact probe_inj _ j i hj hi (hjk.trans hk.symm)
  · intro tbl h
    exact (cancel_info_get_none_iff t tbl).mp h
  · intro tbl h
    exact (start_wrap_loop_none_iff tbl _).mp h

theorem probe_visits_all_witness :
    pthread_t_bits (-1) &&& THREADS_MAX_MASK < THREADS_MAX ∧
    ((pthread_t_bits (-1) &&& THREADS_MAX_MASK : Nat) : Int) = (-1) % 512 :=
  (probe_visits_all 5).2.1 (-1) (by decide) (by decide)

/-! ## The slot a registration takes -/

/-- C16: on a table with an empty slot, the registration of thread `t` writes `t` into
the `thread` field of the slot at index `((t & 511) + j) & 511` for the least `j` in
`0..511` whose slot is empty (the hash bucket itself when that is empty), changes no
other slot and no other field, and sets the handle of `t` to that slot; when `t` was in
no slot before, a lookup of `t` right afterwards returns that slot. -/
theorem register_first_free (t : Nat) (i : _pthread_fix_start_info) (w : World)
    (hfree : ∃ k : Slot, (w.table k).thread = 0) :
    ∃ j, j < THREADS_MAX ∧
      (w.table (probe (t &&& THREADS_MAX_MASK) j)).thread = 0 ∧
      (∀ l, l < j → (w.table (probe (t &&& THREADS_MAX_MASK) l)).thread ≠ 0) ∧
      ((w.table (probe (t &&& THREADS_MAX_MASK) 0)).thread = 0 → j = 0) ∧
      (probe (t &&& THREADS_MAX_MASK) j).val = ((t &&& 511) + j) &&& 511 ∧
      (start_wrap_register t i w).registered = true ∧
      (start_wrap_register t i w).world.table =
        Function.update w.table (probe (t &&& THREADS_MAX_MASK) j)
          { w.table (probe (t &&& THREADS_MAX_MASK) j) with thread := t } ∧
      (start_wrap_register t i w).world.this_cancel_info =
        Function.update w.this_cancel_info t (some (probe (t &&& THREADS_MAX_MASK) j)) ∧
      ((∀ k : Slot, (w.table k).thread ≠ t) →
        (_pthread_fix_cancel_info_get t (start_wrap_register t i w).world.table).2 =
          some (probe (t &&& THREADS_MAX_MASK) j)) := by
  obtain ⟨s, hs0, hloop, hreg⟩ := start_wrap_register_free t i w hfree
  rw [start_wrap_loop_eq] at hloop
  obtain ⟨j, _, hj2, hj3, _, hj5⟩ := cancel_info_get_loop_some w.table 0 _ _ _ s hloop
  have hjlt : j < THREADS_MAX := by omega
  subst hj3
  refine ⟨j, hjlt, hs0, fun l hl => hj5 l (Nat.zero_le l) hl, ?_, ?_, ?_, ?_, ?_, ?_⟩
  · intro h0
    by_contra hne
    exact hj5 0 (le_refl 0) (Nat.pos_of_ne_zero hne) h0
  · show (j + (t &&& THREADS_MAX_MASK)) &&& THREADS_MAX_MASK = ((t &&& 511) + j) &&& 511
    rw [Nat.add_comm]
    rfl
  · rw [hreg]
  · rw [hreg]
  · rw [hreg]
  · intro habs
    rw [hreg]
    simp only [_pthread_fix_cancel_info_get]
    apply cancel_info_get_loop_first _ t _ THREADS_MAX 0 j (Nat.zero_le j) (by omega)
    · simp only [Function.update_same]
    · intro l _ hl
      have hne : probe (t &&& THREADS_MAX_MASK) l ≠ probe (t &&& THREADS_MAX_MASK) j := by
        intro heq
        have := probe_inj _ l j (by omega) hjlt heq
        omega
      simp only [Function.update_noteq hne]
      exact habs _

theorem register_first_free_witness :
    (_pthread_fix_cancel_info_get 517
      (start_wrap_register 517 { return_code := 0, complete := false }
        (World.single zero_info)).world.table).2 = some ⟨6, by decide⟩ := by
  obtain ⟨j, hj, h0, hl, _, _, _, _, _, hget⟩ :=
    register_first_free 517 { return_code := 0, complete := false } (World.single zero_info)
      ⟨⟨0, by decide⟩, by decide⟩
  have hj1 : j = 1 := by
    by_contra hne
    by_cases hj0 : j = 0
    · subst hj0
      revert h0
      decide
    · exact hl 1 (by omega) (by decide)
  subst hj1
  rw [hget (fun k => by
    by_cases hk : k = ⟨5, by decide⟩
    · subst hk
      simp [World.single]
    · simp [World.single, World.init, zero_info, Function.update_noteq hk])]
  decide

/-! ## The call-site guard -/

theorem libcall_cancelcheck_eq {α : Type} (name : World → World × Flow α) (self : Nat)
    (w : World) (h : pthread_testcancel self w = (w, Flow.returned ())) :
    _PTHREAD_FIX_LIBCALL_CANCELCHECK name self w =
      match name (_pthread_fix_set_running false self w).1 with
      | (w2, Flow.returned ret) => ((_pthread_fix_set_running true self w2).1, Flow.returned ret)
      | (w2, Flow.exited r) => (w2, Flow.exited r)
      | (w2, Flow.aborted) => (w2, Flow.aborted) := by
  simp only [_PTHREAD_FIX_LIBCALL_CANCELCHECK]
  rw [andThen_returned _ _ w w () h, andThen_lift]
  simp only [andThen]
  split
  · rename_i w2 ret heq
    simp only [lift, heq]
  · rename_i w2 r heq
    simp only [heq]
  · rename_i w2 heq
    simp only [heq]

theorem libcall_cancelcheck_general {α : Type} (name : World → World × Flow α) (self : Nat)
    (w : World) (i : Slot)
    (hi : w.this_cancel_info self = some i) (ho : (w.table i).thread = self)
    (hnp : ¬ ((w.table i).cancelled = true ∧ (w.table i).cancel_state = PTHREAD_CANCEL_ENABLE)) :
    _PTHREAD_FIX_LIBCALL_CANCELCHECK name self w =
      match name
        { w with table := Function.update w.table i { w.table i with running := false } } with
      | (w2, Flow.returned ret) =>
        ((_pthread_fix_set_running true self w2).1, Flow.returned ret)
      | (w2, Flow.exited r) => (w2, Flow.exited r)
      | (w2, Flow.aborted) => (w2, Flow.aborted) := by
  have ht : pthread_testcancel self w = (w, Flow.returned ()) := by
    rw [testcancel_eq self w i hi ho, if_neg hnp]
  rw [libcall_cancelcheck_eq name self w ht, set_running_eq false self w i hi]

theorem libcall_cancelcheck_pure {α : Type} (v : α) (self : Nat) (w : World) (i : Slot)
    (hi : w.this_cancel_info self = some i) (ho : (w.table i).thread = self)
    (hnp : ¬ ((w.table i).cancelled = true ∧ (w.table i).cancel_state = PTHREAD_CANCEL_ENABLE)) :
    _PTHREAD_FIX_LIBCALL_CANCELCHECK (fun w2 => (w2, Flow.returned v)) self w =
      ({ w with table := Function.update w.table i { w.table i with running := true } },
        Flow.returned v) := by
  rw [libcall_cancelcheck_general _ self w i hi ho hnp]
  simp only []
  have h2 := set_running_eq true self
    { w with table := Function.update w.table i { w.table i with running := false } } i hi
  rw [h2]
  simp only [Function.update_same, Function.update_idem]

/-- C17: for a thread with a registered record and no pending enabled cancellation,
`_PTHREAD_FIX_LIBCALL_CANCELCHECK` passes the checkpoint, runs the wrapped call in the
world where only `running` of the record has been set to `false`, and when the call
returns sets `running` to `true` in the world the call left and returns the call's
result; around a call that changes nothing, the guard changes only `running`. When
`cancelled` and enabled hold on entry, the thread ends at the checkpoint with
`PTHREAD_CANCELED`, whatever the wrapped call is. -/
theorem libcall_cancelcheck_spec {α : Type} (self : Nat) (w : World) (i : Slot)
    (hi : w.this_cancel_info self = some i) (ho : (w.table i).thread = self) :
    (¬ ((w.table i).cancelled = true ∧ (w.table i).cancel_state = PTHREAD_CANCEL_ENABLE) →
      (∀ name : World → World × Flow α,
        _PTHREAD_FIX_LIBCALL_CANCELCHECK name self w =
          match name
            { w with table := Function.update w.table i { w.table i with running := false } } with
          | (w2, Flow.returned ret) =>
            ((_pthread_fix_set_running true self w2).1, Flow.returned ret)
          | (w2, Flow.exited r) => (w2, Flow.exited r)
          | (w2, Flow.aborted) => (w2, Flow.aborted)) ∧
      (∀ v : α,
        _PTHREAD_FIX_LIBCALL_CANCELCHECK (fun w2 => (w2, Flow.returned v)) self w =
          ({ w with table := Function.update w.table i { w.table i with running := true } },
            Flow.returned v))) ∧
    ((w.table i).cancelled = true ∧ (w.table i).cancel_state = PTHREAD_CANCEL_ENABLE →
      ∀ name : World → World × Flow α,
        _PTHREAD_FIX_LIBCALL_CANCELCHECK name self w =
          ({ table := Function.update w.table i zero_info,
             this_cancel_info := Function.update w.this_cancel_info self none },
            Flow.exited PTHREAD_CANCELED)) := by
  constructor
  · intro hnp
    exact ⟨fun name => libcall_cancelcheck_general name self w i hi ho hnp,
      fun v => libcall_cancelcheck_pure v self w i hi ho hnp⟩
  · intro hp name
    have ht := testcancel_eq self w i hi ho
    rw [if_pos hp] at ht
    simp only [_PTHREAD_FIX_LIBCALL_CANCELCHECK, andThen, ht]

theorem libcall_cancelcheck_spec_witness :
    _PTHREAD_FIX_LIBCALL_CANCELCHECK (fun w2 => (w2, Flow.returned (3 : Int))) 5
        (World.single zero_info) =
      ({ World.single zero_info with
          table := Function.update (World.single zero_info).table ⟨5, by decide⟩
            { (World.single zero_info).table ⟨5, by decide⟩ with running := true } },
        Flow.returned 3) :=
  ((libcall_cancelcheck_spec 5 (World.single zero_info) ⟨5, by decide⟩
    (by simp [World.single]) (by simp [World.single])).1
    (by simp [World.single, zero_info])).2 3

/-! ## The running flag of a fresh record -/

theorem start_init_inv (native_ret : Int) (newthread : Nat) (w : World) :
    StartInv native_ret newthread (start_init w) := by
  simp [StartInv, start_init]

theorem wrap_step_inv (native_ret : Int) (newthread : Nat) (s : StartState)
    (h : StartInv native_ret newthread s) :
    StartInv native_ret newthread (wrap_step newthread s) := by
  obtain ⟨world, info, wrap, create, stored⟩ := s
  obtain ⟨h1, h2, h3, h4, h5, h6, h7, h8, h9, h11, h10⟩ := h
  simp only at h1 h2 h3 h4 h5 h6 h7 h8 h9 h10 h11
  cases wrap with
  | not_started => exact ⟨h1, h2, h3, h4, h5, h6, h7, h8, h9, h11, h10⟩
  | returned => exact ⟨h1, h2, h3, h4, h5, h6, h7, h8, h9, h11, h10⟩
  | start_routine => exact ⟨h1, h2, h3, h4, h5, h6, h7, h8, h9, h11, h10⟩
  | search =>
    have hc : info.complete ≠ true := fun hc => by simpa using h1 hc
    simp only [wrap_step]
    split <;> simp_all [StartInv]
  | fail_code =>
    have hc : info.complete ≠ true := fun hc => by simpa using h1 hc
    simp_all [StartInv, wrap_step]
  | fail_complete =>
    have hc : info.complete ≠ true := fun hc => by simpa using h1 hc
    simp_all [StartInv, wrap_step]
  | store i =>
    have hc : info.complete ≠ true := fun hc => by simpa using h1 hc
    simp_all [StartInv, wrap_step]
  | set_this i =>
    have hc : info.complete ≠ true := fun hc => by simpa using h1 hc
    have hi := h7 i rfl
    simp_all [StartInv, wrap_step, StartState.registered]
  | set_code =>
    have hc : info.complete ≠ true := fun hc => by simpa using h1 hc
    simp_all [StartInv, wrap_step, StartState.registered]
  | set_complete =>
    have hc : info.complete ≠ true := fun hc => by simpa using h1 hc
    simp_all [StartInv, wrap_step, StartState.registered]

theorem create_step_inv (native_ret : Int) (newthread : Nat) (s : StartState)
    (h : StartInv native_ret newthread s) :
    StartInv native_ret newthread (create_step native_ret s) := by
  obtain ⟨world, info, wrap, create, stored⟩ := s
  obtain ⟨h1, h2, h3, h4, h5, h6, h7, h8, h9, h11, h10⟩ := h
  simp only at h1 h2 h3 h4 h5 h6 h7 h8 h9 h10 h11
  cases create with
  | call =>
    have hw := h8 rfl
    subst hw
    have hc : info.complete ≠ true := fun hc => by simpa using h1 hc
    by_cases hn : native_ret = 0
    · simp_all [StartInv, create_step, StartState.registered]
    · simp_all [StartInv, create_step, StartState.registered]
  | wait =>
    by_cases hc : info.complete = true
    · simp_all [StartInv, create_step, StartState.registered]
    · simp only [create_step, hc, if_false]
      exact ⟨h1, h2, h3, h4, h5, h6, h7, h8, h9, h11, h10⟩
  | read_code =>
    have hc := h9 rfl
    have hn := h11 (Or.inr rfl)
    simp_all [StartInv, create_step, StartState.registered]
  | returned r => exact ⟨h1, h2, h3, h4, h5, h6, h7, h8, h9, h11, h10⟩

theorem interleave_inv (native_ret : Int) (newthread : Nat) (sched : List Bool)
    (s : StartState) (h : StartInv native_ret newthread s) :
    StartInv native_ret newthread (interleave native_ret newthread sched s) := by
  induction sched generalizing s with
  | nil => exact h
  | cons b rest ih =>
    cases b with
    | true => exact ih _ (wrap_step_inv native_ret newthread s h)
    | false => exact ih _ (create_step_inv native_ret newthread s h)

theorem interleave_sequential (newthread : Nat) (w : World) :
    (interleave 0 newthread [false, true, true, true, true, true, false, false]
      (start_init w)).world =
        (start_wrap_register newthread { return_code := 0, complete := false } w).world ∧
    (interleave 0 newthread [false, true, true, true, true, true, false, false]
      (start_init w)).info =
        (start_wrap_register newthread { return_code := 0, complete := false } w).info ∧
    some (interleave 0 newthread [false, true, true, true, true, true, false, false]
      (start_init w)).create =
        (_pthread_fix_create 0 newthread w).2.map CreatePc.returned := by
  cases hl : start_wrap_loop w.table (newthread &&& THREADS_MAX_MASK) THREADS_MAX 0 with
  | none =>
    simp [interleave, create_step, wrap_step, start_init, start_wrap_register,
      _pthread_fix_create, hl]
  | some slot =>
    simp [interleave, create_step, wrap_step, start_init, start_wrap_register,
      _pthread_fix_create, hl]

/-- C15: in every interleaving of the statements of `_pthread_fix_create` and of
`_pthread_start_wrap` on the thread it starts, `complete` holds with `return_code` 0
only when the new thread has already stored its id in a table slot (line 130) and set
its handle; the creator returns only after it has read `complete` as `true`, unless the
native `pthread_create` failed; so when `_pthread_fix_create` returns `0` the record of
the new thread has been written. -/
theorem create_returns_after_registration (native_ret : Int) (newthread : Nat) (w : World)
    (sched : List Bool) :
    ((interleave native_ret newthread sched (start_init w)).info.complete = true ∧
      (interleave native_ret newthread sched (start_init w)).info.return_code = 0 →
      (interleave native_ret newthread sched (start_init w)).registered newthread) ∧
    (∀ r, (interleave native_ret newthread sched (start_init w)).create = CreatePc.returned r →
      (native_ret ≠ 0 ∧ r = native_ret) ∨
      (native_ret = 0 ∧
        (interleave native_ret newthread sched (start_init w)).info.complete = true ∧
        r = (interleave native_ret newthread sched (start_init w)).info.return_code)) ∧
    ((interleave native_ret newthread sched (start_init w)).create = CreatePc.returned 0 →
      (interleave native_ret newthread sched (start_init w)).stored = true ∧
      ∃ slot : Slot,
        ((interleave native_ret newthread sched (start_init w)).world.table slot).thread =
          newthread ∧
        (interleave native_ret newthread sched (start_init w)).world.this_cancel_info newthread =
          some slot) := by
  have hinv := interleave_inv native_ret newthread sched (start_init w)
    (start_init_inv native_ret newthread w)
  generalize interleave native_ret newthread sched (start_init w) = s at hinv
  obtain ⟨h1, h2, h3, h4, h5, h6, h7, h8, h9, h11, h10⟩ := hinv
  have hreg : s.info.complete = true ∧ s.info.return_code = 0 → s.registered newthread := by
    rintro ⟨hc, hz⟩
    cases h1 hc with
    | inl hr =>
      have := (h2 hr).2
      rw [hz] at this
      exact absurd this (by decide)
    | inr hs => exact (h4 hs).2.2
  refine ⟨hreg, ?_, ?_⟩
  · intro r hr
    cases h10 r hr with
    | inl h => exact Or.inl ⟨h.1, h.2.1⟩
    | inr h => exact Or.inr h
  · intro hr
    cases h10 0 hr with
    | inl h => exact absurd h.2.1.symm h.1
    | inr h => exact hreg ⟨h.2.1, h.2.2.symm⟩

theorem create_returns_after_registration_witness :
    (interleave 0 5 [false, true, true, true, true, true, false, false]
      (start_init World.init)).create = CreatePc.returned 0 ∧
    (interleave 0 5 [false, true, true, true, true, true, false, false]
      (start_init World.init)).stored = true ∧
    ∃ slot : Slot,
      ((interleave 0 5 [false, true, true, true, true, true, false, false]
        (start_init World.init)).world.table slot).thread = 5 ∧
      (interleave 0 5 [false, true, true, true, true, true, false, false]
        (start_init World.init)).world.this_cancel_info 5 = some slot :=
  have hr : (interleave 0 5 [false, true, true, true, true, true, false, false]
      (start_init World.init)).create = CreatePc.returned 0 := by decide
  ⟨hr, (create_returns_after_registration 0 5 World.init
    [false, true, true, true, true, true, false, false]).2.2 hr⟩

end PthreadFix
